import Mathlib

/-!
Verification of the restore-coordination core of percona-backup-mongodb:
the oplog-chunk continuity validator (`chunks`), the oplog replay loop with
its compression fallback (`applyOplog` / `replayChunk`), the restore
convergence protocol (`converged`, `convergeCluster`,
`convergeClusterWithTimeout`, `waitForStatus`) and the backup node-priority
scorer (`BcpNodesPriority`, `NodesPriority`).

External collaborators (the metadata store, object storage, the database
driver, the lock collection, the cluster-time oracle) are passed in as
explicit data, so every function here is a pure shallow embedding of the
corresponding Go function.
-/

namespace PBM

/-- Logical cluster timestamp, as in `primitive.Timestamp` (fields `T` and `I`). -/
structure Timestamp where
  t : Nat
  i : Nat
deriving DecidableEq, Repr

/-- Embedding of the driver's `primitive.CompareTimestamp`: compares `T` first,
then `I`; returns `-1`, `0` or `1`. -/
def compareTS (a b : Timestamp) : Int :=
  if a.t = b.t then
    if a.i = b.i then 0 else if a.i < b.i then -1 else 1
  else if a.t < b.t then -1 else 1

/-- Modelled from the spec: the compression codec tags of `compress.CompressionType`.
Only Snappy and S2 matter for the fallback rule; the other tags are carried along. -/
inductive CompressionType where
  | noComp
  | gzip
  | snappy
  | lz4
  | s2
  | pgzip
  | zstd
deriving DecidableEq, Repr

/-- Descriptor of one oplog chunk (`pbm.OplogChunk`): replica set, storage file
name, compression tag and the covered timestamp range. -/
structure OplogChunk where
  rs : String
  fname : String
  compression : CompressionType
  startTS : Timestamp
  endTS : Timestamp
deriving DecidableEq, Repr

/-- The failure cases of the `chunks` validator, each carrying the identifying
payload the Go error message carries. -/
inductive ChunksErr where
  | noChunksFound
  | noTargetTime (lastEnd : Timestamp)
  | integrityViolated (expected got : Timestamp)
  | missingFile (startTS endTS : Timestamp) (fname : String)
deriving DecidableEq, Repr

/-- The per-chunk walk of `chunks`: running pointer `last` (starting at `from`),
fail on a gap (`last < c.StartTS`), fail on a missing storage object, advance
the pointer to `c.EndTS`. -/
def chunksLoop (stat : String → Bool) (last : Timestamp) : List OplogChunk → Except ChunksErr Unit
  | [] => Except.ok ()
  | c :: rest =>
    if compareTS last c.startTS = -1 then Except.error (ChunksErr.integrityViolated last c.startTS)
    else if stat c.fname = false then Except.error (ChunksErr.missingFile c.startTS c.endTS c.fname)
    else chunksLoop stat c.endTS rest

/-- Embedding of `chunks` (restore package). The fetched chunk list (the result
of `PITRGetChunksSlice`) is passed in as `cks`, and `storage.FileStat` is
modelled by the existence predicate `stat`. -/
def chunks (cks : List OplogChunk) (fromTS toTS : Timestamp) (stat : String → Bool) :
    Except ChunksErr (List OplogChunk) :=
  match cks.getLast? with
  | none => Except.error ChunksErr.noChunksFound
  | some lastC =>
    if compareTS lastC.endTS toTS = -1 then Except.error (ChunksErr.noTargetTime lastC.endTS)
    else
      match chunksLoop stat fromTS cks with
      | Except.error e => Except.error e
      | Except.ok _ => Except.ok cks

/-- The last chunk's end timestamp is not strictly before `to`. -/
def claimLastCovers (cks : List OplogChunk) (toTS : Timestamp) : Bool :=
  match cks.getLast? with
  | none => false
  | some c => !(compareTS c.endTS toTS == -1)

/-- Claim C1's pairing condition, stated the way the claim words it: every
consecutive pair has the next chunk's start equal to the previous chunk's end. -/
def claimPairsEq : List OplogChunk → Bool
  | [] => true
  | [_] => true
  | a :: b :: rest => (a.endTS == b.startTS) && claimPairsEq (b :: rest)

/-- The success condition exactly as claim C1 words it: list non-empty, last
end timestamp at or after `to`, consecutive chunks meet exactly, every file
exists. -/
def chunksClaimOk (cks : List OplogChunk) (toTS : Timestamp) (stat : String → Bool) : Bool :=
  (!cks.isEmpty) && claimLastCovers cks toTS && claimPairsEq cks &&
    cks.all (fun c => stat c.fname)

/-- The timeline condition the code actually enforces: walking in order with a
running pointer starting at `last`, no chunk starts strictly after the pointer,
and the pointer advances to each chunk's end. Overlaps are allowed. -/
def coversFrom (last : Timestamp) : List OplogChunk → Bool
  | [] => true
  | c :: rest => (!(compareTS last c.startTS == -1)) && coversFrom c.endTS rest

/-- An error return of `chunks` identifies a real violation in the input. -/
def errWitnessed (cks : List OplogChunk) (fromTS toTS : Timestamp) (stat : String → Bool) :
    ChunksErr → Prop
  | ChunksErr.noChunksFound => cks = []
  | ChunksErr.noTargetTime ts =>
      ∃ c, cks.getLast? = some c ∧ c.endTS = ts ∧ compareTS ts toTS = -1
  | ChunksErr.integrityViolated exp got =>
      (∃ c ∈ cks, c.startTS = got) ∧ compareTS exp got = -1 ∧
        (exp = fromTS ∨ ∃ c ∈ cks, c.endTS = exp)
  | ChunksErr.missingFile s e f =>
      ∃ c ∈ cks, c.startTS = s ∧ c.endTS = e ∧ c.fname = f ∧ stat f = false

theorem chunksLoop_ok_iff (stat : String → Bool) :
    ∀ (last : Timestamp) (cks : List OplogChunk),
      chunksLoop stat last cks = Except.ok () ↔
        (coversFrom last cks = true ∧ ∀ c ∈ cks, stat c.fname = true)
  | _, [] => by simp [chunksLoop, coversFrom]
  | last, c :: rest => by
    simp only [chunksLoop, coversFrom]
    by_cases hgap : compareTS last c.startTS = -1
    · simp [hgap]
    · have hb : (compareTS last c.startTS == -1) = false := by
        simpa using hgap
      by_cases hf : stat c.fname = false
      · simp [hgap, hf, hb]
      · have hft : stat c.fname = true := by
          cases h : stat c.fname
          · exact absurd h hf
          · rfl
        simp [hgap, hf, hb, hft, chunksLoop_ok_iff stat c.endTS rest]

theorem chunksLoop_err (stat : String → Bool) :
    ∀ (last : Timestamp) (cks : List OplogChunk) (e : ChunksErr),
      chunksLoop stat last cks = Except.error e →
        ((∀ exp got, e = ChunksErr.integrityViolated exp got →
            (∃ c ∈ cks, c.startTS = got) ∧ compareTS exp got = -1 ∧
              (exp = last ∨ ∃ c ∈ cks, c.endTS = exp)) ∧
         (∀ s en f, e = ChunksErr.missingFile s en f →
            ∃ c ∈ cks, c.startTS = s ∧ c.endTS = en ∧ c.fname = f ∧ stat f = false))
  | _, [], _ => by simp [chunksLoop]
  | last, c :: rest, e => by
    simp only [chunksLoop]
    by_cases hgap : compareTS last c.startTS = -1
    · simp only [hgap, if_true]
      intro he
      cases he
      constructor
      · intro exp got hg
        cases hg
        exact ⟨⟨c, List.mem_cons_self c rest, rfl⟩, hgap, Or.inl rfl⟩
      · intro s en f hf
        cases hf
    · by_cases hf : stat c.fname = false
      · simp only [hgap, if_false, hf, if_true]
        intro he
        cases he
        constructor
        · intro exp got hg
          cases hg
        · intro s en f hmf
          cases hmf
          exact ⟨c, List.mem_cons_self c rest, rfl, rfl, rfl, hf⟩
      · simp only [hgap, if_false, hf]
        intro he
        have ih := chunksLoop_err stat c.endTS rest e he
        constructor
        · intro exp got hg
          obtain ⟨⟨c', hc', hcs⟩, hcmp, hexp⟩ := ih.1 exp got hg
          refine ⟨⟨c', List.mem_cons_of_mem c hc', hcs⟩, hcmp, ?_⟩
          rcases hexp with h | ⟨c'', hc'', hce⟩
          · exact Or.inr ⟨c, List.mem_cons_self c rest, h.symm⟩
          · exact Or.inr ⟨c'', List.mem_cons_of_mem c hc'', hce⟩
        · intro s en f hmf
          obtain ⟨c', hc', hprops⟩ := ih.2 s en f hmf
          exact ⟨c', List.mem_cons_of_mem c hc', hprops⟩

theorem chunksLoop_no_noChunks (stat : String → Bool) :
    ∀ (last : Timestamp) (cks : List OplogChunk),
      chunksLoop stat last cks = Except.error ChunksErr.noChunksFound → False
  | _, [] => by simp [chunksLoop]
  | last, c :: rest => by
    simp only [chunksLoop]
    by_cases hgap : compareTS last c.startTS = -1
    · simp only [hgap, if_true]
      intro h
      cases h
    · by_cases hf : stat c.fname = false
      · simp only [hgap, if_false, hf, if_true]
        intro h
        cases h
      · simp only [hgap, if_false, hf]
        exact chunksLoop_no_noChunks stat c.endTS rest

theorem chunksLoop_no_noTarget (stat : String → Bool) :
    ∀ (last : Timestamp) (cks : List OplogChunk) (ts : Timestamp),
      chunksLoop stat last cks = Except.error (ChunksErr.noTargetTime ts) → False
  | _, [], _ => by simp [chunksLoop]
  | last, c :: rest, ts => by
    simp only [chunksLoop]
    by_cases hgap : compareTS last c.startTS = -1
    · simp only [hgap, if_true]
      intro h
      cases h
    · by_cases hf : stat c.fname = false
      · simp only [hgap, if_false, hf, if_true]
        intro h
        cases h
      · simp only [hgap, if_false, hf]
        exact chunksLoop_no_noTarget stat c.endTS rest ts

/-- C1 (amended): `chunks` succeeds, returning its input list, iff the list is
non-empty, the last chunk's end timestamp is at or after `to`, the pointer walk
starting at `from` finds no gap (each chunk starts at or before the running
pointer — overlaps are allowed), and every listed file exists; every error
return carries a payload witnessing the specific violation. -/
theorem chunks_c1_amended (cks : List OplogChunk) (fromTS toTS : Timestamp)
    (stat : String → Bool) :
    ((chunks cks fromTS toTS stat = Except.ok cks) ↔
      (cks ≠ [] ∧ claimLastCovers cks toTS = true ∧ coversFrom fromTS cks = true ∧
        ∀ c ∈ cks, stat c.fname = true)) ∧
    (∀ l, chunks cks fromTS toTS stat = Except.ok l → l = cks) ∧
    (∀ e, chunks cks fromTS toTS stat = Except.error e → errWitnessed cks fromTS toTS stat e) := by
  unfold chunks
  match hlast : cks.getLast? with
  | none =>
    have hnil : cks = [] := by
      cases cks with
      | nil => rfl
      | cons a l => simp [List.getLast?_concat, List.getLast?] at hlast
    subst hnil
    refine ⟨?_, ?_, ?_⟩
    · simp
    · intro l h
      cases h
    · intro e h
      cases h
      simp [errWitnessed]
  | some lastC =>
    have hne : cks ≠ [] := by
      intro h
      subst h
      simp at hlast
    by_cases hcover : compareTS lastC.endTS toTS = -1
    · simp only [hcover, if_true]
      refine ⟨?_, ?_, ?_⟩
      · constructor
        · intro h
          cases h
        · intro ⟨_, hlc, _, _⟩
          unfold claimLastCovers at hlc
          rw [hlast] at hlc
          simp [hcover] at hlc
      · intro l h
        cases h
      · intro e h
        cases h
        exact ⟨lastC, hlast, rfl, hcover⟩
    · simp only [hcover, if_false]
      match hloop : chunksLoop stat fromTS cks with
      | Except.error e =>
        refine ⟨?_, ?_, ?_⟩
        · constructor
          · intro h
            cases h
          · intro ⟨_, _, hcov, hall⟩
            have := (chunksLoop_ok_iff stat fromTS cks).mpr ⟨hcov, hall⟩
            rw [hloop] at this
            cases this
        · intro l h
          cases h
        · intro e' h
          have h2 : e = e' := by
            injection h
          subst h2
          have hkinds := chunksLoop_err stat fromTS cks e hloop
          cases e with
          | noChunksFound =>
            exact absurd hloop (fun h => chunksLoop_no_noChunks stat fromTS cks h)
          | noTargetTime ts =>
            exfalso
            exact chunksLoop_no_noTarget stat fromTS cks ts hloop
          | integrityViolated exp got =>
            exact hkinds.1 exp got rfl
          | missingFile s en f =>
            exact hkinds.2 s en f rfl
      | Except.ok u =>
        cases u
        have hiff := (chunksLoop_ok_iff stat fromTS cks).mp hloop
        refine ⟨?_, ?_, ?_⟩
        · constructor
          · intro _
            refine ⟨hne, ?_, hiff.1, hiff.2⟩
            unfold claimLastCovers
            rw [hlast]
            simp [hcover]
          · intro _
            rfl
        · intro l h
          cases h
          rfl
        · intro e h
          cases h

/-- A two-chunk list whose chunks overlap: the second starts inside the first. -/
def c1Cks : List OplogChunk :=
  [⟨"rs0", "f1", CompressionType.s2, ⟨1, 0⟩, ⟨5, 0⟩⟩,
   ⟨"rs0", "f2", CompressionType.s2, ⟨3, 0⟩, ⟨10, 0⟩⟩]

/-- C1 counterexample: on overlapping chunks (second starts at 3 inside the
first's range, before the first's end 5) the validator succeeds, although the
claim's condition "next chunk's StartTS equals previous chunk's EndTS (no
gaps, no overlaps)" is violated, so the claimed "iff" is false. -/
theorem chunks_c1_counterexample :
    chunks c1Cks ⟨1, 0⟩ ⟨10, 0⟩ (fun _ => true) = Except.ok c1Cks ∧
      chunksClaimOk c1Cks ⟨10, 0⟩ (fun _ => true) = false :=
  ⟨rfl, rfl⟩

/-- A contiguous, fully-present two-chunk list. -/
def c1wCks : List OplogChunk :=
  [⟨"rs0", "g1", CompressionType.snappy, ⟨1, 0⟩, ⟨5, 0⟩⟩,
   ⟨"rs0", "g2", CompressionType.snappy, ⟨5, 0⟩, ⟨10, 0⟩⟩]

/-- Witness for the amended C1 theorem at a concrete input: a contiguous,
fully-present two-chunk list is accepted. -/
theorem chunks_c1_amended_witness :
    (chunks c1wCks ⟨1, 0⟩ ⟨9, 0⟩ (fun _ => true) = Except.ok c1wCks) ↔
      (c1wCks ≠ [] ∧ claimLastCovers c1wCks ⟨9, 0⟩ = true ∧
        coversFrom ⟨1, 0⟩ c1wCks = true ∧
        ∀ c ∈ c1wCks, (fun (_ : String) => true) c.fname = true) :=
  (chunks_c1_amended c1wCks ⟨1, 0⟩ ⟨9, 0⟩ (fun _ => true)).1

/-!
Oplog replay (`applyOplog` / `replayChunk`): per-chunk decompress-and-apply
with the documented Snappy-to-S2 fallback. The storage reader, the
decompressor and the oplog apply primitive are external collaborators,
modelled as the three stages of `ChunkEnv`; errors carry the
`errors.Is(err, snappy.ErrCorrupt)` classification, which `errors.Wrap`
preserves along the chain.
-/

/-- An error value as seen through `errors.Is`/`errors.Wrap`: whether the chain
contains `snappy.ErrCorrupt`, plus the wrap messages pushed onto it. -/
structure RErr where
  corrupt : Bool
  ctx : List String
deriving DecidableEq, Repr

/-- Embedding of `errors.Wrapf`: pushes a message, keeps the cause (so
`errors.Is(err, snappy.ErrCorrupt)` is unchanged). -/
def wrapE (s : String) (e : RErr) : RErr :=
  ⟨e.corrupt, s :: e.ctx⟩

/-- The three external stages a chunk replay goes through: opening the storage
object (`stg.SourceReader`), decompressing it (`compress.Decompress`) and
applying the stream (`oplog.Apply`). Each is indexed by the file and, where
the codec matters, by the codec used. -/
structure ChunkEnv where
  src : String → Except RErr Unit
  decomp : String → CompressionType → Except RErr Unit
  applyO : String → CompressionType → Except RErr Timestamp

/-- Embedding of `replayChunk`: open the object, decompress under codec `c`,
apply; each failure is wrapped with its stage's message. -/
def replayChunk (env : ChunkEnv) (file : String) (c : CompressionType) : Except RErr Timestamp :=
  match env.src file with
  | Except.error e => Except.error (wrapE "get object form the storage" e)
  | Except.ok _ =>
    match env.decomp file c with
    | Except.error e => Except.error (wrapE "decompress object" e)
    | Except.ok _ =>
      match env.applyO file c with
      | Except.error e => Except.error (wrapE "apply oplog for chunk" e)
      | Except.ok ts => Except.ok ts

/-- The fatal replay error of `applyOplog`: the chunk's `StartTS.T`/`EndTS.T`
wrap (`errors.Wrapf(err, "replay chunk %v.%v", ...)`) around the cause. -/
structure ApplyErr where
  startT : Nat
  endT : Nat
  inner : RErr
deriving DecidableEq, Repr

/-- One iteration of `applyOplog`'s chunk loop: replay under the recorded
codec; if that failed and `errors.Is(err, snappy.ErrCorrupt)`, retry the same
file once under S2. Also records the list of (file, codec) attempts made. -/
def processChunk (env : ChunkEnv) (chnk : OplogChunk) :
    Except RErr Timestamp × List (String × CompressionType) :=
  match replayChunk env chnk.fname chnk.compression with
  | Except.ok ts => (Except.ok ts, [(chnk.fname, chnk.compression)])
  | Except.error e =>
    if e.corrupt then
      (replayChunk env chnk.fname CompressionType.s2,
        [(chnk.fname, chnk.compression), (chnk.fname, CompressionType.s2)])
    else (Except.error e, [(chnk.fname, chnk.compression)])

/-- The chunk-replay loop of `applyOplog` (the non-sharded path: the
distributed-transaction epilogue is not entered). Threads the last applied
timestamp `lts`, aborts on the first unrecoverable chunk error, wrapping it
with that chunk's timestamp range, and records every (file, codec) attempt. -/
def applyOplog (env : ChunkEnv) (lts : Timestamp) :
    List OplogChunk → Except ApplyErr Timestamp × List (String × CompressionType)
  | [] => (Except.ok lts, [])
  | chnk :: rest =>
    let pr := processChunk env chnk
    match pr.1 with
    | Except.ok ts =>
      let r := applyOplog env ts rest
      (r.1, pr.2 ++ r.2)
    | Except.error e => (Except.error ⟨chnk.startTS.t, chnk.endTS.t, e⟩, pr.2)

theorem processChunk_trace (env : ChunkEnv) (chnk : OplogChunk) :
    (processChunk env chnk).2 = [(chnk.fname, chnk.compression)] ∨
      (processChunk env chnk).2 =
        [(chnk.fname, chnk.compression), (chnk.fname, CompressionType.s2)] := by
  unfold processChunk
  match replayChunk env chnk.fname chnk.compression with
  | Except.ok ts => exact Or.inl rfl
  | Except.error e =>
    by_cases hc : e.corrupt
    · simp [hc]
    · simp [hc]

theorem applyOplog_cons (env : ChunkEnv) (lts : Timestamp) (chnk : OplogChunk)
    (rest : List OplogChunk) :
    applyOplog env lts (chnk :: rest) =
      match (processChunk env chnk).1 with
      | Except.ok ts =>
        ((applyOplog env ts rest).1, (processChunk env chnk).2 ++ (applyOplog env ts rest).2)
      | Except.error e =>
        (Except.error ⟨chnk.startTS.t, chnk.endTS.t, e⟩, (processChunk env chnk).2) := rfl

theorem applyOplog_trace_codecs (env : ChunkEnv) :
    ∀ (cks : List OplogChunk) (lts : Timestamp), ∀ p ∈ (applyOplog env lts cks).2,
      ∃ c ∈ cks, p.1 = c.fname ∧ (p.2 = c.compression ∨ p.2 = CompressionType.s2)
  | [], _ => by simp [applyOplog]
  | chnk :: rest, lts => by
    intro p hp
    have hmem :
        p ∈ (processChunk env chnk).2 ∨
          ∃ ts, p ∈ (applyOplog env ts rest).2 := by
      revert hp
      rw [applyOplog_cons]
      match hpr : (processChunk env chnk).1 with
      | Except.ok ts =>
        simp only [hpr]
        intro hp
        rcases List.mem_append.mp hp with h | h
        · exact Or.inl h
        · exact Or.inr ⟨ts, h⟩
      | Except.error e =>
        simp only [hpr]
        intro hp
        exact Or.inl hp
    rcases hmem with h | ⟨ts, h⟩
    · rcases processChunk_trace env chnk with htr | htr
      · rw [htr] at h
        simp only [List.mem_singleton] at h
        subst h
        exact ⟨chnk, List.mem_cons_self chnk rest, rfl, Or.inl rfl⟩
      · rw [htr] at h
        rcases List.mem_cons.mp h with h1 | h1
        · subst h1
          exact ⟨chnk, List.mem_cons_self chnk rest, rfl, Or.inl rfl⟩
        · simp only [List.mem_singleton] at h1
          subst h1
          exact ⟨chnk, List.mem_cons_self chnk rest, rfl, Or.inr rfl⟩
    · obtain ⟨c, hc, hprops⟩ := applyOplog_trace_codecs env rest ts p h
      exact ⟨c, List.mem_cons_of_mem chnk hc, hprops⟩

/-- C5: chunk replay inside `applyOplog`. If replaying a chunk fails and the
error is snappy's corrupt-input condition, the chunk is retried exactly once
under S2 and under no other codec; a non-corrupt failure triggers no fallback;
any unrecoverable error aborts the loop immediately (nothing after the failing
chunk is attempted) wrapped with that chunk's start/end timestamps; and every
attempt ever made uses either a chunk's recorded codec or S2. -/
theorem applyOplog_c5 (env : ChunkEnv) (lts : Timestamp) (chnk : OplogChunk)
    (rest : List OplogChunk) (e : RErr)
    (hfail : replayChunk env chnk.fname chnk.compression = Except.error e) :
    (e.corrupt = true →
      (processChunk env chnk).2 =
          [(chnk.fname, chnk.compression), (chnk.fname, CompressionType.s2)] ∧
        (∀ ts, replayChunk env chnk.fname CompressionType.s2 = Except.ok ts →
          applyOplog env lts (chnk :: rest) =
            ((applyOplog env ts rest).1,
              (chnk.fname, chnk.compression) :: (chnk.fname, CompressionType.s2) ::
                (applyOplog env ts rest).2)) ∧
        (∀ e2, replayChunk env chnk.fname CompressionType.s2 = Except.error e2 →
          applyOplog env lts (chnk :: rest) =
            (Except.error ⟨chnk.startTS.t, chnk.endTS.t, e2⟩,
              [(chnk.fname, chnk.compression), (chnk.fname, CompressionType.s2)]))) ∧
    (e.corrupt = false →
      (processChunk env chnk).2 = [(chnk.fname, chnk.compression)] ∧
        applyOplog env lts (chnk :: rest) =
          (Except.error ⟨chnk.startTS.t, chnk.endTS.t, e⟩,
            [(chnk.fname, chnk.compression)])) ∧
    (∀ cks : List OplogChunk, ∀ p ∈ (applyOplog env lts cks).2,
      ∃ c ∈ cks, p.1 = c.fname ∧ (p.2 = c.compression ∨ p.2 = CompressionType.s2)) := by
  refine ⟨?_, ?_, ?_⟩
  · intro hc
    refine ⟨?_, ?_, ?_⟩
    · simp [processChunk, hfail, hc]
    · intro ts hs2
      simp [applyOplog, processChunk, hfail, hc, hs2]
    · intro e2 hs2
      simp [applyOplog, processChunk, hfail, hc, hs2]
  · intro hc
    constructor
    · simp [processChunk, hfail, hc]
    · simp [applyOplog, processChunk, hfail, hc]
  · intro cks
    exact applyOplog_trace_codecs env cks lts

/-- A replay environment whose decompressor reports snappy corrupt-input for
the snappy codec and succeeds for every other codec; apply yields timestamp 7. -/
def c5Env : ChunkEnv :=
  ⟨fun _ => Except.ok (),
   fun _ c =>
     if c = CompressionType.snappy then Except.error ⟨true, []⟩ else Except.ok (),
   fun _ _ => Except.ok ⟨7, 0⟩⟩

/-- A chunk recorded as snappy-compressed. -/
def c5Chnk : OplogChunk := ⟨"rs0", "h1", CompressionType.snappy, ⟨1, 0⟩, ⟨2, 0⟩⟩

/-- Witness for C5: a chunk whose snappy decompression reports corrupt input is
retried under S2 exactly once and the replay succeeds. -/
theorem applyOplog_c5_witness :
    (applyOplog c5Env ⟨0, 0⟩ [c5Chnk]).2 =
        [("h1", CompressionType.snappy), ("h1", CompressionType.s2)] ∧
      (applyOplog c5Env ⟨0, 0⟩ [c5Chnk]).1 = Except.ok ⟨7, 0⟩ := by
  have h := applyOplog_c5 c5Env ⟨0, 0⟩ c5Chnk [] ⟨true, ["decompress object"]⟩ rfl
  have h2 := (h.1 rfl).2.1 ⟨7, 0⟩ rfl
  constructor
  · rw [h2]
    rfl
  · rw [h2]
    rfl

/-!
Restore convergence: `converged`, the polling loops `convergeCluster` and
`convergeClusterWithTimeout`, and the follower wait `waitForStatus`. The
shared store's restore record is explicit data; `GetLockData`,
`ClusterTime` and the read outcomes are supplied by the environment.
-/

/-- Modelled from the spec: the restore status enumeration of §4.5 — starting →
running → (per-phase intermediate statuses) → done, with an absorbing error
status. -/
inductive Status where
  | starting
  | running
  | dumpDone
  | done
  | error
deriving DecidableEq, Repr

/-- One per-replica-set record of the restore metadata (`Replsets` entry):
name, its own status, its own error message. -/
structure RestoreReplset where
  name : String
  status : Status
  error : String
deriving DecidableEq, Repr

/-- The global restore record (`RestoreMeta`): global status, last fatal error,
coordinator heartbeat `Hb.T`, and the per-replica-set records. -/
structure RestoreMeta where
  status : Status
  error : String
  hb : Nat
  replsets : List RestoreReplset
deriving DecidableEq, Repr

/-- A participating shard (`pbm.Shard`); only its replica-set name is used. -/
structure Shard where
  rs : String
deriving DecidableEq, Repr

/-- The outcome of `GetLockData` for one replica set: a lock with its heartbeat
`T`, mongo's no-documents condition (no lock), or any other read error. -/
inductive LockRes where
  | found (hbT : Nat)
  | noDocuments
  | readErr
deriving DecidableEq, Repr

/-- Modelled from the spec: `pbm.StaleFrameSec`, the fixed staleness threshold
in cluster-time seconds used by both liveness detectors. -/
def staleFrameSec : Nat := 30

/-- Modulus of the uint32 arithmetic in `lock.Heartbeat.T + StaleFrameSec`. -/
def u32 : Nat := 4294967296

/-- The staleness test `hb.T + StaleFrameSec < clusterTime.T` (uint32 addition
wraps). -/
def staleHB (hbT ct : Nat) : Bool :=
  decide ((hbT + staleFrameSec) % u32 < ct)

/-- The failure cases of `converged`, with the payload its error messages carry. -/
inductive ConvErr where
  | getMetaFailed
  | clusterTimeFailed
  | lockReadErr (rs : String)
  | lostShard (rs : String) (hbT : Nat)
  | shardFailed (rs : String) (msg : String)
deriving DecidableEq, Repr

/-- The external world one `converged` call observes: the participating shards,
the per-replica-set lock lookup, the cluster time, and whether the metadata and
cluster-time reads succeed. -/
structure ConvEnv where
  shards : List Shard
  locks : String → LockRes
  clusterTime : Nat
  metaRead : Bool
  ctRead : Bool

/-- The inner loop of `converged` for one shard name `sh`: walk every
`Replsets` record; on a name match, first the liveness check (skipped when the
target status is done, or when the lock read returned no-documents), then the
status switch (a match on the target decrements the counter, the error status
fails with the shard's message). -/
def scanRS (env : ConvEnv) (target : Status) (sh : String) :
    List RestoreReplset → Int → Except ConvErr Int
  | [], stf => Except.ok stf
  | r :: rest, stf =>
    if r.name = sh then
      match env.locks r.name with
      | LockRes.noDocuments =>
        if r.status = target then scanRS env target sh rest (stf - 1)
        else if r.status = Status.error then
          Except.error (ConvErr.shardFailed r.name r.error)
        else scanRS env target sh rest stf
      | LockRes.readErr =>
        if target = Status.done then
          if r.status = target then scanRS env target sh rest (stf - 1)
          else if r.status = Status.error then
            Except.error (ConvErr.shardFailed r.name r.error)
          else scanRS env target sh rest stf
        else Except.error (ConvErr.lockReadErr r.name)
      | LockRes.found hb =>
        if target = Status.done ∨ staleHB hb env.clusterTime = false then
          if r.status = target then scanRS env target sh rest (stf - 1)
          else if r.status = Status.error then
            Except.error (ConvErr.shardFailed r.name r.error)
          else scanRS env target sh rest stf
        else Except.error (ConvErr.lostShard r.name hb)
    else scanRS env target sh rest stf

/-- The outer loop of `converged`: run the inner walk once per participating
shard, threading the shards-to-finish counter. -/
def scanShards (env : ConvEnv) (target : Status) (rss : List RestoreReplset) :
    List Shard → Int → Except ConvErr Int
  | [], stf => Except.ok stf
  | sh :: rest, stf =>
    match scanRS env target sh.rs rss stf with
    | Except.error e => Except.error e
    | Except.ok stf' => scanShards env target rss rest stf'

/-- Modelled from the spec: `ChangeRestoreState(name, status, "")` — the
leader's single atomic commit of the global status (clearing the error field). -/
def commitMeta (m : RestoreMeta) (target : Status) : RestoreMeta :=
  ⟨target, "", m.hb, m.replsets⟩

/-- What one `converged` call produced: the Go return value, the store's
record after the call, the number of `ChangeRestoreState` writes performed,
and the final value of the local `bmeta` copy. -/
structure ConvOut where
  result : Except ConvErr Bool
  store : RestoreMeta
  writes : Nat
  localMeta : RestoreMeta
deriving Repr

/-- The final value of the local `bmeta` copy when the scan fails: on the
shard-error branch the code sets `bmeta.Status = StatusError` and
`bmeta.Error = shard.Error` before returning; every other failure leaves the
fetched copy unchanged. -/
def convErrLocalMeta (store : RestoreMeta) : ConvErr → RestoreMeta
  | ConvErr.shardFailed _ msg => ⟨Status.error, msg, store.hb, store.replsets⟩
  | _ => store

/-- Embedding of `converged`: read the restore metadata and the cluster time,
scan every (shard, replica-set record) pair, and when the counter reaches zero
commit the target status to the store. On the shard-error branch only the
local copy's Status/Error fields are set. -/
def converged (env : ConvEnv) (store : RestoreMeta) (target : Status) : ConvOut :=
  if env.metaRead = false then
    ⟨Except.error ConvErr.getMetaFailed, store, 0, store⟩
  else if env.ctRead = false then
    ⟨Except.error ConvErr.clusterTimeFailed, store, 0, store⟩
  else
    match scanShards env target store.replsets env.shards ((env.shards.length : Nat) : Int) with
    | Except.error e => ⟨Except.error e, store, 0, convErrLocalMeta store e⟩
    | Except.ok stf =>
      if stf = 0 then ⟨Except.ok true, commitMeta store target, 1, store⟩
      else ⟨Except.ok false, store, 0, store⟩

/-- One select resolution of the `convergeCluster` loop: a one-second tick
(with the environment and store as observed at that tick) or the cancellation
signal of the enclosing context. -/
inductive ConvEvent where
  | tick (env : ConvEnv) (store : RestoreMeta)
  | cancelled

/-- Embedding of `convergeCluster` over a finite trace of select resolutions:
`some r` means the loop returned (`r` is the Go error value, `none` = nil),
`none` means the trace ended while the loop was still polling. -/
def convergeClusterRun (target : Status) : List ConvEvent → Option (Option ConvErr)
  | [] => none
  | ConvEvent.tick env store :: rest =>
    match (converged env store target).result with
    | Except.error e => some (some e)
    | Except.ok true => some none
    | Except.ok false => convergeClusterRun target rest
  | ConvEvent.cancelled :: _ => some none

/-- A select resolution of `convergeClusterWithTimeout`: tick, the timeout
channel firing, or cancellation. -/
inductive ConvTOEvent where
  | tick (env : ConvEnv) (store : RestoreMeta)
  | timeout
  | cancelled

/-- The error of `convergeClusterWithTimeout`: a `converged` failure or the
distinguished `errConvergeTimeOut`. -/
inductive ConvTOErr where
  | converge (e : ConvErr)
  | convergeTimeOut
deriving DecidableEq, Repr

/-- Embedding of `convergeClusterWithTimeout` over a finite trace of select
resolutions. -/
def convergeClusterWithTimeoutRun (target : Status) :
    List ConvTOEvent → Option (Option ConvTOErr)
  | [] => none
  | ConvTOEvent.tick env store :: rest =>
    match (converged env store target).result with
    | Except.error e => some (some (ConvTOErr.converge e))
    | Except.ok true => some none
    | Except.ok false => convergeClusterWithTimeoutRun target rest
  | ConvTOEvent.timeout :: _ => some (some ConvTOErr.convergeTimeOut)
  | ConvTOEvent.cancelled :: _ => some none

/-- The outcome of one `GetRestoreMeta` read in `waitForStatus`: the record
does not exist yet (`pbm.ErrNotFound`), the read failed, or the record. -/
inductive MetaRes where
  | notFound
  | failed
  | okMeta (m : RestoreMeta)

/-- The failure cases of `waitForStatus`. -/
inductive WaitErr where
  | getMetaFailed
  | clusterTimeFailed
  | stuck (hbT : Nat)
  | clusterFailed (msg : String)
deriving DecidableEq, Repr

/-- What one tick of `waitForStatus` decides. -/
inductive WaitStep where
  | continueW
  | doneW
  | failW (e : WaitErr)
deriving DecidableEq, Repr

/-- One tick of `waitForStatus`: a not-yet-created record keeps waiting; a
failed read fails; a stale global heartbeat fails ("restore stuck"); a status
matching the target succeeds; the error status fails with the carried message;
anything else keeps waiting. -/
def waitForStatusTick (metaRes : MetaRes) (ctRead : Bool) (ct : Nat) (target : Status) :
    WaitStep :=
  match metaRes with
  | MetaRes.notFound => WaitStep.continueW
  | MetaRes.failed => WaitStep.failW WaitErr.getMetaFailed
  | MetaRes.okMeta meta =>
    if ctRead = false then WaitStep.failW WaitErr.clusterTimeFailed
    else if staleHB meta.hb ct then WaitStep.failW (WaitErr.stuck meta.hb)
    else if meta.status = target then WaitStep.doneW
    else if meta.status = Status.error then WaitStep.failW (WaitErr.clusterFailed meta.error)
    else WaitStep.continueW

/-- A select resolution of the `waitForStatus` loop. -/
inductive WaitEvent where
  | tick (metaRes : MetaRes) (ctRead : Bool) (ct : Nat)
  | cancelled

/-- Embedding of `waitForStatus` over a finite trace of select resolutions. -/
def waitForStatusRun (target : Status) : List WaitEvent → Option (Option WaitErr)
  | [] => none
  | WaitEvent.tick m cr ct :: rest =>
    match waitForStatusTick m cr ct target with
    | WaitStep.continueW => waitForStatusRun target rest
    | WaitStep.doneW => some none
    | WaitStep.failW e => some (some e)
  | WaitEvent.cancelled :: _ => some none

/-- No liveness fault for a matching record: the target is the done status, or
the lock is absent, or the lock is present with a fresh heartbeat. -/
def noLiveFault (env : ConvEnv) (target : Status) (r : RestoreReplset) : Prop :=
  target = Status.done ∨ env.locks r.name = LockRes.noDocuments ∨
    ∃ hb, env.locks r.name = LockRes.found hb ∧ staleHB hb env.clusterTime = false

/-- The number of records whose name matches `sh` and whose status equals the
target. -/
def matchCount (sh : String) (target : Status) (rss : List RestoreReplset) : Nat :=
  (rss.filter (fun r => decide (r.name = sh ∧ r.status = target))).length

theorem matchCount_cons (sh : String) (target : Status) (r : RestoreReplset)
    (rest : List RestoreReplset) :
    matchCount sh target (r :: rest) =
      (if r.name = sh ∧ r.status = target then 1 else 0) + matchCount sh target rest := by
  unfold matchCount
  rw [List.filter_cons]
  by_cases h : r.name = sh ∧ r.status = target
  · simp [h]
    omega
  · simp [h]

theorem scanRS_clean (env : ConvEnv) (target : Status) (sh : String) :
    ∀ (rss : List RestoreReplset) (stf : Int),
      (∀ r ∈ rss, r.name = sh → noLiveFault env target r ∧ r.status ≠ Status.error) →
      scanRS env target sh rss stf = Except.ok (stf - (matchCount sh target rss : Int))
  | [], stf, _ => by simp [scanRS, matchCount]
  | r :: rest, stf, h => by
    have hrest : ∀ r' ∈ rest, r'.name = sh →
        noLiveFault env target r' ∧ r'.status ≠ Status.error :=
      fun r' hr' => h r' (List.mem_cons_of_mem r hr')
    by_cases hname : r.name = sh
    · obtain ⟨hlive, herr⟩ := h r (List.mem_cons_self r rest) hname
      have hred : scanRS env target sh (r :: rest) stf =
          (if r.status = target then scanRS env target sh rest (stf - 1)
           else scanRS env target sh rest stf) := by
        rcases hlive with hdone | hnod | ⟨hb, hfound, hfresh⟩
        · match hl : env.locks sh with
          | LockRes.noDocuments => simp [scanRS, hname, hl, hdone, herr]
          | LockRes.readErr => simp [scanRS, hname, hl, hdone, herr]
          | LockRes.found hb => simp [scanRS, hname, hl, hdone, herr]
        · have hl : env.locks sh = LockRes.noDocuments := hname ▸ hnod
          simp [scanRS, hname, hl, herr]
        · have hl : env.locks sh = LockRes.found hb := hname ▸ hfound
          simp [scanRS, hname, hl, hfresh, herr]
      rw [hred, matchCount_cons]
      by_cases hst : r.status = target
      · rw [if_pos hst, scanRS_clean env target sh rest (stf - 1) hrest,
          if_pos ⟨hname, hst⟩]
        congr 1
        push_cast
        ring
      · rw [if_neg hst, scanRS_clean env target sh rest stf hrest,
          if_neg (fun hc => hst hc.2)]
        congr 1
        push_cast
        ring
    · have hred : scanRS env target sh (r :: rest) stf = scanRS env target sh rest stf := by
        simp [scanRS, hname]
      rw [hred, scanRS_clean env target sh rest stf hrest, matchCount_cons,
        if_neg (fun hc => hname hc.1)]
      congr 1
      push_cast
      ring

/-- The total number of (shard, matching record with target status) pairs. -/
def shardsMatchCount (target : Status) (rss : List RestoreReplset) (shs : List Shard) : Nat :=
  (shs.map (fun sh => matchCount sh.rs target rss)).sum

theorem scanShards_clean (env : ConvEnv) (target : Status) (rss : List RestoreReplset) :
    ∀ (shs : List Shard) (stf : Int),
      (∀ sh ∈ shs, ∀ r ∈ rss, r.name = sh.rs →
        noLiveFault env target r ∧ r.status ≠ Status.error) →
      scanShards env target rss shs stf =
        Except.ok (stf - (shardsMatchCount target rss shs : Int))
  | [], stf, _ => by simp [scanShards, shardsMatchCount]
  | sh :: rest, stf, h => by
    have hsh := h sh (List.mem_cons_self sh rest)
    have hrest : ∀ sh' ∈ rest, ∀ r ∈ rss, r.name = sh'.rs →
        noLiveFault env target r ∧ r.status ≠ Status.error :=
      fun sh' hsh' => h sh' (List.mem_cons_of_mem sh hsh')
    have h1 := scanRS_clean env target sh.rs rss stf hsh
    have hred : scanShards env target rss (sh :: rest) stf =
        scanShards env target rss rest (stf - (matchCount sh.rs target rss : Int)) := by
      simp [scanShards, h1]
    rw [hred, scanShards_clean env target rss rest _ hrest]
    have hsum : shardsMatchCount target rss (sh :: rest) =
        matchCount sh.rs target rss + shardsMatchCount target rss rest := by
      simp [shardsMatchCount]
    rw [hsum]
    congr 1
    push_cast
    ring

theorem scanRS_err_kinds (env : ConvEnv) (target : Status) (sh : String) :
    ∀ (rss : List RestoreReplset) (stf : Int) (e : ConvErr),
      scanRS env target sh rss stf = Except.error e →
      (∃ r ∈ rss, r.name = sh ∧ r.status = Status.error ∧
          e = ConvErr.shardFailed r.name r.error) ∨
      (∃ r ∈ rss, r.name = sh ∧ target ≠ Status.done ∧
        ((e = ConvErr.lockReadErr r.name ∧ env.locks r.name = LockRes.readErr) ∨
         (∃ hb, e = ConvErr.lostShard r.name hb ∧ env.locks r.name = LockRes.found hb ∧
            staleHB hb env.clusterTime = true)))
  | [], stf, e => by simp [scanRS]
  | r :: rest, stf, e => by
    intro hscan
    have lift :
        ((∃ r' ∈ rest, r'.name = sh ∧ r'.status = Status.error ∧
            e = ConvErr.shardFailed r'.name r'.error) ∨
         (∃ r' ∈ rest, r'.name = sh ∧ target ≠ Status.done ∧
           ((e = ConvErr.lockReadErr r'.name ∧ env.locks r'.name = LockRes.readErr) ∨
            (∃ hb, e = ConvErr.lostShard r'.name hb ∧ env.locks r'.name = LockRes.found hb ∧
               staleHB hb env.clusterTime = true)))) →
        ((∃ r' ∈ r :: rest, r'.name = sh ∧ r'.status = Status.error ∧
            e = ConvErr.shardFailed r'.name r'.error) ∨
         (∃ r' ∈ r :: rest, r'.name = sh ∧ target ≠ Status.done ∧
           ((e = ConvErr.lockReadErr r'.name ∧ env.locks r'.name = LockRes.readErr) ∨
            (∃ hb, e = ConvErr.lostShard r'.name hb ∧ env.locks r'.name = LockRes.found hb ∧
               staleHB hb env.clusterTime = true)))) := by
      rintro (⟨r', hr', hp⟩ | ⟨r', hr', hp⟩)
      · exact Or.inl ⟨r', List.mem_cons_of_mem r hr', hp⟩
      · exact Or.inr ⟨r', List.mem_cons_of_mem r hr', hp⟩
    by_cases hname : r.name = sh
    · rw [scanRS, if_pos hname] at hscan
      match hl : env.locks r.name with
      | LockRes.noDocuments =>
        simp only [hl] at hscan
        by_cases hst : r.status = target
        · rw [if_pos hst] at hscan
          exact lift (scanRS_err_kinds env target sh rest (stf - 1) e hscan)
        · rw [if_neg hst] at hscan
          by_cases hse : r.status = Status.error
          · rw [if_pos hse] at hscan
            have he : e = ConvErr.shardFailed r.name r.error := by
              injection hscan with h2
              exact h2.symm
            exact Or.inl ⟨r, List.mem_cons_self r rest, hname, hse, he⟩
          · rw [if_neg hse] at hscan
            exact lift (scanRS_err_kinds env target sh rest stf e hscan)
      | LockRes.readErr =>
        simp only [hl] at hscan
        by_cases hdone : target = Status.done
        · rw [if_pos hdone] at hscan
          by_cases hst : r.status = target
          · rw [if_pos hst] at hscan
            exact lift (scanRS_err_kinds env target sh rest (stf - 1) e hscan)
          · rw [if_neg hst] at hscan
            by_cases hse : r.status = Status.error
            · rw [if_pos hse] at hscan
              have he : e = ConvErr.shardFailed r.name r.error := by
                injection hscan with h2
                exact h2.symm
              exact Or.inl ⟨r, List.mem_cons_self r rest, hname, hse, he⟩
            · rw [if_neg hse] at hscan
              exact lift (scanRS_err_kinds env target sh rest stf e hscan)
        · rw [if_neg hdone] at hscan
          have he : e = ConvErr.lockReadErr r.name := by
            injection hscan with h2
            exact h2.symm
          exact Or.inr ⟨r, List.mem_cons_self r rest, hname, hdone, Or.inl ⟨he, hl⟩⟩
      | LockRes.found hb =>
        simp only [hl] at hscan
        by_cases hok : target = Status.done ∨ staleHB hb env.clusterTime = false
        · rw [if_pos hok] at hscan
          by_cases hst : r.status = target
          · rw [if_pos hst] at hscan
            exact lift (scanRS_err_kinds env target sh rest (stf - 1) e hscan)
          · rw [if_neg hst] at hscan
            by_cases hse : r.status = Status.error
            · rw [if_pos hse] at hscan
              have he : e = ConvErr.shardFailed r.name r.error := by
                injection hscan with h2
                exact h2.symm
              exact Or.inl ⟨r, List.mem_cons_self r rest, hname, hse, he⟩
            · rw [if_neg hse] at hscan
              exact lift (scanRS_err_kinds env target sh rest stf e hscan)
        · rw [if_neg hok] at hscan
          push_neg at hok
          have he : e = ConvErr.lostShard r.name hb := by
            injection hscan with h2
            exact h2.symm
          have hstale : staleHB hb env.clusterTime = true := by
            cases h : staleHB hb env.clusterTime
            · exact absurd h hok.2
            · rfl
          exact Or.inr ⟨r, List.mem_cons_self r rest, hname, hok.1,
            Or.inr ⟨hb, he, hl, hstale⟩⟩
    · rw [scanRS, if_neg hname] at hscan
      exact lift (scanRS_err_kinds env target sh rest stf e hscan)

theorem scanShards_err_kinds (env : ConvEnv) (target : Status) (rss : List RestoreReplset) :
    ∀ (shs : List Shard) (stf : Int) (e : ConvErr),
      scanShards env target rss shs stf = Except.error e →
      (∃ r ∈ rss, (∃ sh ∈ shs, r.name = sh.rs) ∧ r.status = Status.error ∧
          e = ConvErr.shardFailed r.name r.error) ∨
      (∃ r ∈ rss, (∃ sh ∈ shs, r.name = sh.rs) ∧ target ≠ Status.done ∧
        ((e = ConvErr.lockReadErr r.name ∧ env.locks r.name = LockRes.readErr) ∨
         (∃ hb, e = ConvErr.lostShard r.name hb ∧ env.locks r.name = LockRes.found hb ∧
            staleHB hb env.clusterTime = true)))
  | [], stf, e => by simp [scanShards]
  | sh :: rest, stf, e => by
    intro hscan
    rw [scanShards] at hscan
    revert hscan
    match hrs : scanRS env target sh.rs rss stf with
    | Except.error e' =>
      intro hscan
      have he : e' = e := by
        injection hscan
      subst he
      rcases scanRS_err_kinds env target sh.rs rss stf e' hrs with
        ⟨r, hr, hn, hp⟩ | ⟨r, hr, hn, hp⟩
      · exact Or.inl ⟨r, hr, ⟨sh, List.mem_cons_self sh rest, hn⟩, hp⟩
      · exact Or.inr ⟨r, hr, ⟨sh, List.mem_cons_self sh rest, hn⟩, hp⟩
    | Except.ok stf' =>
      intro hscan
      rcases scanShards_err_kinds env target rss rest stf' e hscan with
        ⟨r, hr, ⟨sh', hsh', hn⟩, hp⟩ | ⟨r, hr, ⟨sh', hsh', hn⟩, hp⟩
      · exact Or.inl ⟨r, hr, ⟨sh', List.mem_cons_of_mem sh hsh', hn⟩, hp⟩
      · exact Or.inr ⟨r, hr, ⟨sh', List.mem_cons_of_mem sh hsh', hn⟩, hp⟩

theorem matchCount_zero (sh : String) (target : Status) :
    ∀ (rss : List RestoreReplset), (∀ r ∈ rss, r.name ≠ sh) →
      matchCount sh target rss = 0
  | [], _ => rfl
  | r :: rest, h => by
    rw [matchCount_cons, if_neg (fun hc => h r (List.mem_cons_self r rest) hc.1),
      matchCount_zero sh target rest (fun r' hr' => h r' (List.mem_cons_of_mem r hr'))]

theorem scanRS_stale (env : ConvEnv) (target : Status) (sh : String)
    (htgt : target ≠ Status.done) (hb : Nat)
    (hlk : env.locks sh = LockRes.found hb)
    (hstale : staleHB hb env.clusterTime = true) :
    ∀ (rss : List RestoreReplset) (stf : Int), (∃ r ∈ rss, r.name = sh) →
      scanRS env target sh rss stf = Except.error (ConvErr.lostShard sh hb)
  | [], stf, hex => by simp at hex
  | r :: rest, stf, hex => by
    by_cases hname : r.name = sh
    · have hl : env.locks r.name = LockRes.found hb := by
        rw [hname]
        exact hlk
      have hguard : ¬(target = Status.done ∨ staleHB hb env.clusterTime = false) := by
        rintro (h | h)
        · exact htgt h
        · rw [hstale] at h
          cases h
      rw [scanRS, if_pos hname]
      simp only [hl]
      rw [if_neg hguard, hname]
    · have hex' : ∃ r' ∈ rest, r'.name = sh := by
        obtain ⟨r0, hr0, hr0n⟩ := hex
        rcases List.mem_cons.mp hr0 with h | h
        · subst h
          exact absurd hr0n hname
        · exact ⟨r0, h, hr0n⟩
      rw [scanRS, if_neg hname]
      exact scanRS_stale env target sh htgt hb hlk hstale rest stf hex'

theorem scanRS_shardErr (env : ConvEnv) (target : Status) (sh : String)
    (htgt : target ≠ Status.error) :
    ∀ (rss : List RestoreReplset) (stf : Int),
      (∀ r ∈ rss, r.name = sh → noLiveFault env target r) →
      (∃ r ∈ rss, r.name = sh ∧ r.status = Status.error) →
      ∃ msg, scanRS env target sh rss stf = Except.error (ConvErr.shardFailed sh msg) ∧
        ∃ r ∈ rss, r.name = sh ∧ r.status = Status.error ∧ r.error = msg
  | [], stf, _, hex => by simp at hex
  | r :: rest, stf, hlive, hex => by
    have hrest : ∀ r' ∈ rest, r'.name = sh → noLiveFault env target r' :=
      fun r' hr' => hlive r' (List.mem_cons_of_mem r hr')
    by_cases hname : r.name = sh
    · have hstep : scanRS env target sh (r :: rest) stf =
          (if r.status = target then scanRS env target sh rest (stf - 1)
           else if r.status = Status.error then
             Except.error (ConvErr.shardFailed r.name r.error)
           else scanRS env target sh rest stf) := by
        rcases hlive r (List.mem_cons_self r rest) hname with hdone | hnod | ⟨hb, hfound, hfresh⟩
        · match hl : env.locks sh with
          | LockRes.noDocuments =>
            have hl' : env.locks r.name = LockRes.noDocuments := hname ▸ hl
            simp [scanRS, hname, hl, hl', hdone]
          | LockRes.readErr =>
            have hl' : env.locks r.name = LockRes.readErr := hname ▸ hl
            simp [scanRS, hname, hl, hl', hdone]
          | LockRes.found hb =>
            have hl' : env.locks r.name = LockRes.found hb := hname ▸ hl
            simp [scanRS, hname, hl, hl', hdone]
        · have hls : env.locks sh = LockRes.noDocuments := hname ▸ hnod
          simp [scanRS, hname, hnod, hls]
        · have hls : env.locks sh = LockRes.found hb := hname ▸ hfound
          simp [scanRS, hname, hfound, hls, hfresh]
      by_cases hst : r.status = target
      · have hne : r.status ≠ Status.error := fun hcon => htgt (hst ▸ hcon ▸ rfl)
        have hex' : ∃ r' ∈ rest, r'.name = sh ∧ r'.status = Status.error := by
          obtain ⟨r0, hr0, hr0n, hr0s⟩ := hex
          rcases List.mem_cons.mp hr0 with h | h
          · subst h
            exact absurd hr0s hne
          · exact ⟨r0, h, hr0n, hr0s⟩
        obtain ⟨msg, hmsg, r1, hr1, hp⟩ :=
          scanRS_shardErr env target sh htgt rest (stf - 1) hrest hex'
        exact ⟨msg, by rw [hstep, if_pos hst]; exact hmsg,
          r1, List.mem_cons_of_mem r hr1, hp⟩
      · by_cases hse : r.status = Status.error
        · refine ⟨r.error, ?_, r, List.mem_cons_self r rest, hname, hse, rfl⟩
          rw [hstep, if_neg hst, if_pos hse, hname]
        · have hex' : ∃ r' ∈ rest, r'.name = sh ∧ r'.status = Status.error := by
            obtain ⟨r0, hr0, hr0n, hr0s⟩ := hex
            rcases List.mem_cons.mp hr0 with h | h
            · subst h
              exact absurd hr0s hse
            · exact ⟨r0, h, hr0n, hr0s⟩
          obtain ⟨msg, hmsg, r1, hr1, hp⟩ :=
            scanRS_shardErr env target sh htgt rest stf hrest hex'
          exact ⟨msg, by rw [hstep, if_neg hst, if_neg hse]; exact hmsg,
            r1, List.mem_cons_of_mem r hr1, hp⟩
    · have hex' : ∃ r' ∈ rest, r'.name = sh ∧ r'.status = Status.error := by
        obtain ⟨r0, hr0, hr0n, hr0s⟩ := hex
        rcases List.mem_cons.mp hr0 with h | h
        · subst h
          exact absurd hr0n hname
        · exact ⟨r0, h, hr0n, hr0s⟩
      obtain ⟨msg, hmsg, r1, hr1, hp⟩ :=
        scanRS_shardErr env target sh htgt rest stf hrest hex'
      refine ⟨msg, ?_, r1, List.mem_cons_of_mem r hr1, hp⟩
      rw [scanRS, if_neg hname]
      exact hmsg

theorem scanRS_noMatch (env : ConvEnv) (target : Status) (sh : String)
    (rss : List RestoreReplset) (stf : Int) (h : ∀ r ∈ rss, r.name ≠ sh) :
    scanRS env target sh rss stf = Except.ok stf := by
  have hc := scanRS_clean env target sh rss stf (fun r hr hn => absurd hn (h r hr))
  rw [matchCount_zero sh target rss h] at hc
  simpa using hc

theorem scanShards_stale (env : ConvEnv) (target : Status) (rss : List RestoreReplset)
    (htgt : target ≠ Status.done) :
    ∀ (shs : List Shard) (stf : Int),
      (∀ sh ∈ shs, ∀ r ∈ rss, r.name = sh.rs →
        r.status ≠ Status.error ∧ env.locks sh.rs ≠ LockRes.readErr) →
      (∃ sh ∈ shs, ∃ r ∈ rss, r.name = sh.rs ∧
        ∃ hb, env.locks sh.rs = LockRes.found hb ∧ staleHB hb env.clusterTime = true) →
      ∃ name hb,
        scanShards env target rss shs stf = Except.error (ConvErr.lostShard name hb) ∧
        env.locks name = LockRes.found hb ∧ staleHB hb env.clusterTime = true ∧
        (∃ sh ∈ shs, sh.rs = name) ∧ (∃ r ∈ rss, r.name = name)
  | [], stf, _, hex => by simp at hex
  | sh1 :: rest, stf, hclean, hex => by
    have hcleanRest : ∀ sh ∈ rest, ∀ r ∈ rss, r.name = sh.rs →
        r.status ≠ Status.error ∧ env.locks sh.rs ≠ LockRes.readErr :=
      fun sh hsh => hclean sh (List.mem_cons_of_mem sh1 hsh)
    have hstep : ∀ stf' : Int, scanRS env target sh1.rs rss stf = Except.ok stf' →
        scanShards env target rss (sh1 :: rest) stf = scanShards env target rss rest stf' := by
      intro stf' hok
      simp [scanShards, hok]
    match hl : env.locks sh1.rs with
    | LockRes.found hb =>
      by_cases hstale : staleHB hb env.clusterTime = true
      · by_cases hex1 : ∃ r ∈ rss, r.name = sh1.rs
        · have hsr := scanRS_stale env target sh1.rs htgt hb hl hstale rss stf hex1
          refine ⟨sh1.rs, hb, ?_, hl, hstale, ⟨sh1, List.mem_cons_self sh1 rest, rfl⟩, hex1⟩
          simp [scanShards, hsr]
        · have hnm : ∀ r ∈ rss, r.name ≠ sh1.rs := by
            intro r hr hn
            exact hex1 ⟨r, hr, hn⟩
          have hok := scanRS_noMatch env target sh1.rs rss stf hnm
          have hex' : ∃ sh ∈ rest, ∃ r ∈ rss, r.name = sh.rs ∧
              ∃ hb, env.locks sh.rs = LockRes.found hb ∧ staleHB hb env.clusterTime = true := by
            obtain ⟨sh0, hsh0, r0, hr0, hr0n, hbs⟩ := hex
            rcases List.mem_cons.mp hsh0 with h | h
            · subst h
              exact absurd ⟨r0, hr0, hr0n⟩ hex1
            · exact ⟨sh0, h, r0, hr0, hr0n, hbs⟩
          obtain ⟨name, hb', hrun, hlk, hst, ⟨sh0, hsh0, hsh0n⟩, hr⟩ :=
            scanShards_stale env target rss htgt rest stf hcleanRest hex'
          exact ⟨name, hb', by rw [hstep stf hok]; exact hrun, hlk, hst,
            ⟨sh0, List.mem_cons_of_mem sh1 hsh0, hsh0n⟩, hr⟩
      · have hcl : ∀ r ∈ rss, r.name = sh1.rs →
            noLiveFault env target r ∧ r.status ≠ Status.error := by
          intro r hr hn
          refine ⟨Or.inr (Or.inr ⟨hb, ?_, ?_⟩), (hclean sh1 (List.mem_cons_self sh1 rest) r hr hn).1⟩
          · rw [hn]
            exact hl
          · cases h : staleHB hb env.clusterTime
            · rfl
            · exact absurd h hstale
        have hok := scanRS_clean env target sh1.rs rss stf hcl
        have hex' : ∃ sh ∈ rest, ∃ r ∈ rss, r.name = sh.rs ∧
            ∃ hb, env.locks sh.rs = LockRes.found hb ∧ staleHB hb env.clusterTime = true := by
          obtain ⟨sh0, hsh0, r0, hr0, hr0n, hb', hlk', hst'⟩ := hex
          rcases List.mem_cons.mp hsh0 with h | h
          · subst h
            rw [hl] at hlk'
            injection hlk' with hhb
            subst hhb
            exact absurd hst' hstale
          · exact ⟨sh0, h, r0, hr0, hr0n, hb', hlk', hst'⟩
        obtain ⟨name, hb', hrun, hlk, hst, ⟨sh0, hsh0, hsh0n⟩, hr⟩ :=
          scanShards_stale env target rss htgt rest _ hcleanRest hex'
        exact ⟨name, hb', by rw [hstep _ hok]; exact hrun, hlk, hst,
          ⟨sh0, List.mem_cons_of_mem sh1 hsh0, hsh0n⟩, hr⟩
    | LockRes.noDocuments =>
      have hcl : ∀ r ∈ rss, r.name = sh1.rs →
          noLiveFault env target r ∧ r.status ≠ Status.error := by
        intro r hr hn
        refine ⟨Or.inr (Or.inl ?_), (hclean sh1 (List.mem_cons_self sh1 rest) r hr hn).1⟩
        rw [hn]
        exact hl
      have hok := scanRS_clean env target sh1.rs rss stf hcl
      have hex' : ∃ sh ∈ rest, ∃ r ∈ rss, r.name = sh.rs ∧
          ∃ hb, env.locks sh.rs = LockRes.found hb ∧ staleHB hb env.clusterTime = true := by
        obtain ⟨sh0, hsh0, r0, hr0, hr0n, hb', hlk', hst'⟩ := hex
        rcases List.mem_cons.mp hsh0 with h | h
        · subst h
          rw [hl] at hlk'
          cases hlk'
        · exact ⟨sh0, h, r0, hr0, hr0n, hb', hlk', hst'⟩
      obtain ⟨name, hb', hrun, hlk, hst, ⟨sh0, hsh0, hsh0n⟩, hr⟩ :=
        scanShards_stale env target rss htgt rest _ hcleanRest hex'
      exact ⟨name, hb', by rw [hstep _ hok]; exact hrun, hlk, hst,
        ⟨sh0, List.mem_cons_of_mem sh1 hsh0, hsh0n⟩, hr⟩
    | LockRes.readErr =>
      by_cases hex1 : ∃ r ∈ rss, r.name = sh1.rs
      · obtain ⟨r0, hr0, hr0n⟩ := hex1
        exact absurd hl (hclean sh1 (List.mem_cons_self sh1 rest) r0 hr0 hr0n).2
      · have hnm : ∀ r ∈ rss, r.name ≠ sh1.rs := by
          intro r hr hn
          exact hex1 ⟨r, hr, hn⟩
        have hok := scanRS_noMatch env target sh1.rs rss stf hnm
        have hex' : ∃ sh ∈ rest, ∃ r ∈ rss, r.name = sh.rs ∧
            ∃ hb, env.locks sh.rs = LockRes.found hb ∧ staleHB hb env.clusterTime = true := by
          obtain ⟨sh0, hsh0, r0, hr0, hr0n, hbs⟩ := hex
          rcases List.mem_cons.mp hsh0 with h | h
          · subst h
            exact absurd ⟨r0, hr0, hr0n⟩ hex1
          · exact ⟨sh0, h, r0, hr0, hr0n, hbs⟩
        obtain ⟨name, hb', hrun, hlk, hst, ⟨sh0, hsh0, hsh0n⟩, hr⟩ :=
          scanShards_stale env target rss htgt rest stf hcleanRest hex'
        exact ⟨name, hb', by rw [hstep stf hok]; exact hrun, hlk, hst,
          ⟨sh0, List.mem_cons_of_mem sh1 hsh0, hsh0n⟩, hr⟩

theorem scanShards_shardErr (env : ConvEnv) (target : Status) (rss : List RestoreReplset)
    (htgt : target ≠ Status.error) :
    ∀ (shs : List Shard) (stf : Int),
      (∀ sh ∈ shs, ∀ r ∈ rss, r.name = sh.rs → noLiveFault env target r) →
      (∃ sh ∈ shs, ∃ r ∈ rss, r.name = sh.rs ∧ r.status = Status.error) →
      ∃ name msg,
        scanShards env target rss shs stf = Except.error (ConvErr.shardFailed name msg) ∧
        (∃ r ∈ rss, r.name = name ∧ r.status = Status.error ∧ r.error = msg) ∧
        (∃ sh ∈ shs, sh.rs = name)
  | [], stf, _, hex => by simp at hex
  | sh1 :: rest, stf, hlive, hex => by
    have hliveRest : ∀ sh ∈ rest, ∀ r ∈ rss, r.name = sh.rs → noLiveFault env target r :=
      fun sh hsh => hlive sh (List.mem_cons_of_mem sh1 hsh)
    by_cases hex1 : ∃ r ∈ rss, r.name = sh1.rs ∧ r.status = Status.error
    · obtain ⟨msg, hmsg, r1, hr1, hp⟩ :=
        scanRS_shardErr env target sh1.rs htgt rss stf
          (hlive sh1 (List.mem_cons_self sh1 rest)) hex1
      refine ⟨sh1.rs, msg, ?_, ⟨r1, hr1, hp⟩, sh1, List.mem_cons_self sh1 rest, rfl⟩
      simp [scanShards, hmsg]
    · have hcl : ∀ r ∈ rss, r.name = sh1.rs →
          noLiveFault env target r ∧ r.status ≠ Status.error := by
        intro r hr hn
        exact ⟨hlive sh1 (List.mem_cons_self sh1 rest) r hr hn,
          fun hse => hex1 ⟨r, hr, hn, hse⟩⟩
      have hok := scanRS_clean env target sh1.rs rss stf hcl
      have hex' : ∃ sh ∈ rest, ∃ r ∈ rss, r.name = sh.rs ∧ r.status = Status.error := by
        obtain ⟨sh0, hsh0, r0, hr0, hr0n, hr0s⟩ := hex
        rcases List.mem_cons.mp hsh0 with h | h
        · subst h
          exact absurd ⟨r0, hr0, hr0n, hr0s⟩ hex1
        · exact ⟨sh0, h, r0, hr0, hr0n, hr0s⟩
      obtain ⟨name, msg, hrun, hrr, sh0, hsh0, hsh0n⟩ :=
        scanShards_shardErr env target rss htgt rest _ hliveRest hex'
      refine ⟨name, msg, ?_, hrr, sh0, List.mem_cons_of_mem sh1 hsh0, hsh0n⟩
      rw [show scanShards env target rss (sh1 :: rest) stf =
        scanShards env target rss rest (stf - (matchCount sh1.rs target rss : Int)) from
          by simp [scanShards, hok]]
      exact hrun

/-- C10: a single `converged` call performs at most one write to the shared
store — the global-status commit, executed exactly when every shard matched the
target; on every other return path (not yet converged, read error, stale lock,
lock read error, or a shard in error status) the store is left untouched, and
on the shard-error branch only the locally fetched copy of the metadata gets
its Status and Error fields set. -/
theorem converged_c10 (env : ConvEnv) (store : RestoreMeta) (target : Status) :
    (converged env store target).writes ≤ 1 ∧
    ((converged env store target).writes = 1 ↔
      (converged env store target).result = Except.ok true) ∧
    ((converged env store target).result = Except.ok true →
      (converged env store target).store = commitMeta store target) ∧
    ((converged env store target).result ≠ Except.ok true →
      (converged env store target).store = store) ∧
    (∀ n msg,
      (converged env store target).result = Except.error (ConvErr.shardFailed n msg) →
      (converged env store target).store = store ∧
      (converged env store target).localMeta =
        ⟨Status.error, msg, store.hb, store.replsets⟩) := by
  unfold converged
  by_cases hm : env.metaRead = false
  · simp [hm]
  · rw [if_neg hm]
    by_cases hct : env.ctRead = false
    · simp [hct]
    · rw [if_neg hct]
      match hscan : scanShards env target store.replsets env.shards
          ((env.shards.length : Nat) : Int) with
      | Except.error e =>
        refine ⟨by simp, by simp, by simp, fun _ => rfl, ?_⟩
        intro n' msg' hres
        have h1 : e = ConvErr.shardFailed n' msg' := by
          injection hres
        subst h1
        exact ⟨rfl, rfl⟩
      | Except.ok stf =>
        by_cases hz : stf = 0
        · simp [hz]
        · simp [hz]

/-- C4 (amended): when the scan is clean and the number of matching (shard,
record) pairs at the target status equals the shard count, `converged` commits
the target status and returns success — exactly one store write in that call,
and `convergeCluster` stops polling at that very tick; but a repeated
`converged` call for the same target is not a pure read: it performs the same
value-idempotent status write again, leaving the store content unchanged. -/
theorem converged_c4_amended (env : ConvEnv) (store : RestoreMeta) (target : Status)
    (hm : env.metaRead = true) (hct : env.ctRead = true)
    (hclean : ∀ sh ∈ env.shards, ∀ r ∈ store.replsets, r.name = sh.rs →
      noLiveFault env target r ∧ r.status ≠ Status.error)
    (hcount : shardsMatchCount target store.replsets env.shards = env.shards.length) :
    (converged env store target).result = Except.ok true ∧
    (converged env store target).writes = 1 ∧
    (converged env store target).store = commitMeta store target ∧
    ((converged env (commitMeta store target) target).result = Except.ok true ∧
     (converged env (commitMeta store target) target).writes = 1 ∧
     (converged env (commitMeta store target) target).store = commitMeta store target) ∧
    (∀ rest, convergeClusterRun target (ConvEvent.tick env store :: rest) = some none) := by
  have hmf : ¬env.metaRead = false := by
    rw [hm]
    simp
  have hctf : ¬env.ctRead = false := by
    rw [hct]
    simp
  have hscan := scanShards_clean env target store.replsets env.shards
    ((env.shards.length : Nat) : Int) hclean
  have hz : ((env.shards.length : Nat) : Int) -
      (shardsMatchCount target store.replsets env.shards : Int) = 0 := by
    rw [hcount]
    omega
  rw [hz] at hscan
  have hres : converged env store target = ⟨Except.ok true, commitMeta store target, 1, store⟩ := by
    unfold converged
    rw [if_neg hmf, if_neg hctf]
    simp [hscan]
  have hscan2 := scanShards_clean env target (commitMeta store target).replsets env.shards
    ((env.shards.length : Nat) : Int) hclean
  rw [show (commitMeta store target).replsets = store.replsets from rfl] at hscan2
  rw [hz] at hscan2
  have hres2 : converged env (commitMeta store target) target =
      ⟨Except.ok true, commitMeta (commitMeta store target) target, 1, commitMeta store target⟩ := by
    unfold converged
    rw [if_neg hmf, if_neg hctf,
      show (commitMeta store target).replsets = store.replsets from rfl]
    simp [hscan2]
  have hcc : commitMeta (commitMeta store target) target = commitMeta store target := rfl
  refine ⟨by rw [hres], by rw [hres], by rw [hres], ⟨?_, ?_, ?_⟩, ?_⟩
  · rw [hres2]
  · rw [hres2]
  · rw [hres2]
    exact hcc
  · intro rest
    simp [convergeClusterRun, hres]

/-- C2 (amended): while the target status is not done, a present lock whose
heartbeat is stale relative to cluster time fails convergence immediately with
a lost-shard error (when no shard fails the scan for another reason); a
missing lock, however, is tolerated in every target status — it never produces
a liveness failure, because the code skips the whole check on
mongo.ErrNoDocuments; and in the done target status the liveness check is
skipped entirely, so only a shard-error status can fail the call. -/
theorem converged_c2_amended (env : ConvEnv) (store : RestoreMeta) (target : Status)
    (hm : env.metaRead = true) (hct : env.ctRead = true) :
    (target ≠ Status.done →
      (∀ sh ∈ env.shards, ∀ r ∈ store.replsets, r.name = sh.rs →
        r.status ≠ Status.error ∧ env.locks sh.rs ≠ LockRes.readErr) →
      (∃ sh ∈ env.shards, ∃ r ∈ store.replsets, r.name = sh.rs ∧
        ∃ hb, env.locks sh.rs = LockRes.found hb ∧ staleHB hb env.clusterTime = true) →
      ∃ name hb,
        (converged env store target).result = Except.error (ConvErr.lostShard name hb) ∧
        env.locks name = LockRes.found hb ∧ staleHB hb env.clusterTime = true) ∧
    (target = Status.done →
      ∀ e, (converged env store target).result = Except.error e →
        ∃ n m, e = ConvErr.shardFailed n m) ∧
    ((∀ sh ∈ env.shards, env.locks sh.rs = LockRes.noDocuments) →
      ∀ e, (converged env store target).result = Except.error e →
        ∃ n m, e = ConvErr.shardFailed n m) := by
  have hmf : ¬env.metaRead = false := by
    rw [hm]
    simp
  have hctf : ¬env.ctRead = false := by
    rw [hct]
    simp
  have hres_of_scan : ∀ e, scanShards env target store.replsets env.shards
      ((env.shards.length : Nat) : Int) = Except.error e →
      (converged env store target).result = Except.error e := by
    intro e hscan
    unfold converged
    rw [if_neg hmf, if_neg hctf]
    simp [hscan]
  have hscan_of_res : ∀ e, (converged env store target).result = Except.error e →
      scanShards env target store.replsets env.shards
        ((env.shards.length : Nat) : Int) = Except.error e := by
    intro e hres
    revert hres
    unfold converged
    rw [if_neg hmf, if_neg hctf]
    match hscan : scanShards env target store.replsets env.shards
        ((env.shards.length : Nat) : Int) with
    | Except.error e' =>
      intro hres
      simpa using hres
    | Except.ok stf =>
      by_cases hz : stf = 0
      · simp [hz]
      · simp [hz]
  refine ⟨?_, ?_, ?_⟩
  · intro htgt hcl hex
    obtain ⟨name, hb, hrun, hlk, hst, _, _⟩ :=
      scanShards_stale env target store.replsets htgt env.shards
        ((env.shards.length : Nat) : Int) hcl hex
    exact ⟨name, hb, hres_of_scan _ hrun, hlk, hst⟩
  · intro hdone e hres
    have h := hscan_of_res e hres
    rcases scanShards_err_kinds env target store.replsets env.shards
        ((env.shards.length : Nat) : Int) e h with ⟨r, _, _, _, he⟩ | ⟨r, _, _, hne, _⟩
    · exact ⟨r.name, r.error, he⟩
    · exact absurd hdone hne
  · intro hnod e hres
    have h := hscan_of_res e hres
    rcases scanShards_err_kinds env target store.replsets env.shards
        ((env.shards.length : Nat) : Int) e h with ⟨r, _, _, _, he⟩ | hlv
    · exact ⟨r.name, r.error, he⟩
    · obtain ⟨r, hr, ⟨sh, hsh, hn⟩, _, hp⟩ := hlv
      have hl := hnod sh hsh
      rw [← hn] at hl
      rcases hp with ⟨_, hlk⟩ | ⟨hb, _, hlk, _⟩
      · rw [hl] at hlk
        cases hlk
      · rw [hl] at hlk
        cases hlk

/-- C3 (amended): when no shard trips the liveness check (which the code runs
before the status switch), a shard reporting the error status makes
`converged` return (false, err) on the first call observing it, with the error
carrying that shard's name and message; the local copy of the restore record
gets its Status/Error fields set while the stored record is not written, and
the polling loop returns that error at that very tick with no further polling. -/
theorem converged_c3_amended (env : ConvEnv) (store : RestoreMeta) (target : Status)
    (hm : env.metaRead = true) (hct : env.ctRead = true) (htgt : target ≠ Status.error)
    (hlive : ∀ sh ∈ env.shards, ∀ r ∈ store.replsets, r.name = sh.rs →
      noLiveFault env target r)
    (hex : ∃ sh ∈ env.shards, ∃ r ∈ store.replsets, r.name = sh.rs ∧
      r.status = Status.error) :
    ∃ name msg,
      (converged env store target).result = Except.error (ConvErr.shardFailed name msg) ∧
      (∃ r ∈ store.replsets, r.name = name ∧ r.status = Status.error ∧ r.error = msg) ∧
      (converged env store target).localMeta =
        ⟨Status.error, msg, store.hb, store.replsets⟩ ∧
      (converged env store target).store = store ∧
      (converged env store target).writes = 0 ∧
      (∀ rest, convergeClusterRun target (ConvEvent.tick env store :: rest) =
        some (some (ConvErr.shardFailed name msg))) := by
  have hmf : ¬env.metaRead = false := by
    rw [hm]
    simp
  have hctf : ¬env.ctRead = false := by
    rw [hct]
    simp
  obtain ⟨name, msg, hrun, hrr, _⟩ :=
    scanShards_shardErr env target store.replsets htgt env.shards
      ((env.shards.length : Nat) : Int) hlive hex
  have hconv : converged env store target =
      ⟨Except.error (ConvErr.shardFailed name msg), store, 0,
        ⟨Status.error, msg, store.hb, store.replsets⟩⟩ := by
    unfold converged
    rw [if_neg hmf, if_neg hctf]
    simp [hrun, convErrLocalMeta]
  refine ⟨name, msg, by rw [hconv], hrr, by rw [hconv], by rw [hconv], by rw [hconv], ?_⟩
  intro rest
  simp [convergeClusterRun, hconv]

/-- A restore record whose only shard reports the running status. -/
def c2Store : RestoreMeta := ⟨Status.starting, "", 100, [⟨"rs0", Status.running, ""⟩]⟩

/-- An environment whose single shard has no lock record at all. -/
def c2Env : ConvEnv := ⟨[⟨"rs0"⟩], fun _ => LockRes.noDocuments, 1000, true, true⟩

/-- C2 counterexample: the target status is running (not done) and the shard's
lock record is missing, yet `converged` succeeds and commits — the code skips
the liveness check entirely on mongo.ErrNoDocuments, so a missing lock never
fails convergence, contrary to the claim. -/
theorem converged_c2_counterexample :
    (converged c2Env c2Store Status.running).result = Except.ok true := rfl

/-- A record whose shard runs, with a lock whose heartbeat is long stale. -/
def c2wStore : RestoreMeta := ⟨Status.starting, "", 5, [⟨"rs1", Status.running, ""⟩]⟩

/-- Environment with a present lock at heartbeat 5 against cluster time 1000. -/
def c2wEnv : ConvEnv := ⟨[⟨"rs1"⟩], fun _ => LockRes.found 5, 1000, true, true⟩

/-- Witness for the amended C2: a present stale lock makes `converged` fail
with a lost-shard error. -/
theorem converged_c2_amended_witness :
    ∃ name hb,
      (converged c2wEnv c2wStore Status.running).result =
        Except.error (ConvErr.lostShard name hb) ∧
      c2wEnv.locks name = LockRes.found hb ∧ staleHB hb c2wEnv.clusterTime = true :=
  (converged_c2_amended c2wEnv c2wStore Status.running rfl rfl).1
    (by decide)
    (by
      intro sh hsh r hr hn
      exact ⟨by
        have hr2 : r = ⟨"rs1", Status.running, ""⟩ := by
          simpa [c2wStore] using hr
        subst hr2
        decide, by
        intro hcon
        cases hcon⟩)
    ⟨⟨"rs1"⟩, List.mem_cons_self _ _, ⟨"rs1", Status.running, ""⟩,
      List.mem_cons_self _ _, rfl, 5, rfl, rfl⟩

/-- A record whose shard reports the error status "disk full", with a stale
lock heartbeat. -/
def c3Store : RestoreMeta := ⟨Status.starting, "", 7, [⟨"rs1", Status.error, "disk full"⟩]⟩

/-- Environment with a present lock at heartbeat 7 against cluster time 1000. -/
def c3Env : ConvEnv := ⟨[⟨"rs1"⟩], fun _ => LockRes.found 7, 1000, true, true⟩

/-- C3 counterexample: shard rs1 reports the error status with message "disk
full" and its lock heartbeat is stale; `converged` returns the lost-shard
liveness error, not the shard-error failure — the liveness check runs first,
so the error status does not take priority over the staleness concern. -/
theorem converged_c3_counterexample :
    (converged c3Env c3Store Status.running).result =
      Except.error (ConvErr.lostShard "rs1" 7) := rfl

/-- Same erroring shard, but with a fresh lock heartbeat. -/
def c3wStore : RestoreMeta :=
  ⟨Status.starting, "", 7, [⟨"rs1", Status.error, "disk full"⟩]⟩

/-- Environment with a fresh lock (heartbeat equal to cluster time). -/
def c3wEnv : ConvEnv := ⟨[⟨"rs1"⟩], fun _ => LockRes.found 1000, 1000, true, true⟩

/-- Witness for the amended C3: with liveness clean, the rs1 "disk full" error
status fails `converged` on the first call, carrying name and message, with
only the local metadata copy mutated. -/
theorem converged_c3_amended_witness :
    ∃ name msg,
      (converged c3wEnv c3wStore Status.running).result =
        Except.error (ConvErr.shardFailed name msg) ∧
      (∃ r ∈ c3wStore.replsets, r.name = name ∧ r.status = Status.error ∧ r.error = msg) ∧
      (converged c3wEnv c3wStore Status.running).localMeta =
        ⟨Status.error, msg, c3wStore.hb, c3wStore.replsets⟩ ∧
      (converged c3wEnv c3wStore Status.running).store = c3wStore ∧
      (converged c3wEnv c3wStore Status.running).writes = 0 ∧
      (∀ rest, convergeClusterRun Status.running (ConvEvent.tick c3wEnv c3wStore :: rest) =
        some (some (ConvErr.shardFailed name msg))) :=
  converged_c3_amended c3wEnv c3wStore Status.running rfl rfl (by decide)
    (fun sh hsh r hr hn => Or.inr (Or.inr ⟨1000, rfl, rfl⟩))
    ⟨⟨"rs1"⟩, List.mem_cons_self _ _, ⟨"rs1", Status.error, "disk full"⟩,
      List.mem_cons_self _ _, rfl, rfl⟩

/-- A restore record whose only shard already reports the running status. -/
def c4Store : RestoreMeta := ⟨Status.starting, "", 100, [⟨"rs0", Status.running, ""⟩]⟩

/-- Environment with a fresh lock (heartbeat equal to cluster time). -/
def c4Env : ConvEnv := ⟨[⟨"rs0"⟩], fun _ => LockRes.found 100, 100, true, true⟩

/-- C4 counterexample: after a successful commit, calling `converged` again for
the same target performs the global-status write again (one write, not zero) —
repeated calls are not pure reads, contrary to the claim. -/
theorem converged_c4_counterexample :
    (converged c4Env c4Store Status.running).result = Except.ok true ∧
      (converged c4Env (converged c4Env c4Store Status.running).store Status.running).writes
        = 1 :=
  ⟨rfl, rfl⟩

/-- Witness for the amended C4 at the concrete single-shard input. -/
theorem converged_c4_amended_witness :
    (converged c4Env c4Store Status.running).result = Except.ok true ∧
    (converged c4Env c4Store Status.running).writes = 1 ∧
    (converged c4Env c4Store Status.running).store = commitMeta c4Store Status.running ∧
    ((converged c4Env (commitMeta c4Store Status.running) Status.running).result =
        Except.ok true ∧
     (converged c4Env (commitMeta c4Store Status.running) Status.running).writes = 1 ∧
     (converged c4Env (commitMeta c4Store Status.running) Status.running).store =
        commitMeta c4Store Status.running) ∧
    (∀ rest, convergeClusterRun Status.running (ConvEvent.tick c4Env c4Store :: rest) =
      some none) :=
  converged_c4_amended c4Env c4Store Status.running rfl rfl
    (by
      intro sh hsh r hr hn
      have hr2 : r = ⟨"rs0", Status.running, ""⟩ := by
        simpa [c4Store] using hr
      subst hr2
      exact ⟨Or.inr (Or.inr ⟨100, rfl, rfl⟩), by decide⟩)
    rfl

/-- Witness for C10 at a concrete input. -/
def c10Store : RestoreMeta := ⟨Status.starting, "", 3, [⟨"rsA", Status.starting, ""⟩]⟩

/-- Environment for the C10 witness: one shard, no lock, reads succeed. -/
def c10Env : ConvEnv := ⟨[⟨"rsA"⟩], fun _ => LockRes.noDocuments, 50, true, true⟩

/-- Witness for C10: the frame conditions instantiated at a concrete call. -/
theorem converged_c10_witness :
    (converged c10Env c10Store Status.running).writes ≤ 1 ∧
    ((converged c10Env c10Store Status.running).writes = 1 ↔
      (converged c10Env c10Store Status.running).result = Except.ok true) ∧
    ((converged c10Env c10Store Status.running).result = Except.ok true →
      (converged c10Env c10Store Status.running).store =
        commitMeta c10Store Status.running) ∧
    ((converged c10Env c10Store Status.running).result ≠ Except.ok true →
      (converged c10Env c10Store Status.running).store = c10Store) ∧
    (∀ n msg,
      (converged c10Env c10Store Status.running).result =
        Except.error (ConvErr.shardFailed n msg) →
      (converged c10Env c10Store Status.running).store = c10Store ∧
      (converged c10Env c10Store Status.running).localMeta =
        ⟨Status.error, msg, c10Store.hb, c10Store.replsets⟩) :=
  converged_c10 c10Env c10Store Status.running

/-- C9: when the cancellation signal fires, every polling loop —
`convergeCluster`, `convergeClusterWithTimeout` and `waitForStatus` — returns
nil (no error) at that tick boundary, regardless of whether convergence or the
awaited status was reached: any run whose earlier ticks were all still-polling
ticks and which then observes cancellation returns no error. -/
theorem loops_c9 (target : Status) :
    (∀ (pre rest : List ConvEvent),
      (∀ ev ∈ pre, ∃ env store, ev = ConvEvent.tick env store ∧
        (converged env store target).result = Except.ok false) →
      convergeClusterRun target (pre ++ ConvEvent.cancelled :: rest) = some none) ∧
    (∀ (pre rest : List ConvTOEvent),
      (∀ ev ∈ pre, ∃ env store, ev = ConvTOEvent.tick env store ∧
        (converged env store target).result = Except.ok false) →
      convergeClusterWithTimeoutRun target (pre ++ ConvTOEvent.cancelled :: rest) =
        some none) ∧
    (∀ (pre rest : List WaitEvent),
      (∀ ev ∈ pre, ∃ m cr ct, ev = WaitEvent.tick m cr ct ∧
        waitForStatusTick m cr ct target = WaitStep.continueW) →
      waitForStatusRun target (pre ++ WaitEvent.cancelled :: rest) = some none) := by
  refine ⟨?_, ?_, ?_⟩
  · intro pre
    induction pre with
    | nil => exact fun rest _ => rfl
    | cons ev evs ih =>
      intro rest h
      obtain ⟨env, store, hev, hok⟩ := h ev (List.mem_cons_self ev evs)
      subst hev
      rw [List.cons_append]
      have hstep : convergeClusterRun target
          (ConvEvent.tick env store :: (evs ++ ConvEvent.cancelled :: rest)) =
          convergeClusterRun target (evs ++ ConvEvent.cancelled :: rest) := by
        simp [convergeClusterRun, hok]
      rw [hstep]
      exact ih rest (fun ev2 hev2 => h ev2 (List.mem_cons_of_mem _ hev2))
  · intro pre
    induction pre with
    | nil => exact fun rest _ => rfl
    | cons ev evs ih =>
      intro rest h
      obtain ⟨env, store, hev, hok⟩ := h ev (List.mem_cons_self ev evs)
      subst hev
      rw [List.cons_append]
      have hstep : convergeClusterWithTimeoutRun target
          (ConvTOEvent.tick env store :: (evs ++ ConvTOEvent.cancelled :: rest)) =
          convergeClusterWithTimeoutRun target (evs ++ ConvTOEvent.cancelled :: rest) := by
        simp [convergeClusterWithTimeoutRun, hok]
      rw [hstep]
      exact ih rest (fun ev2 hev2 => h ev2 (List.mem_cons_of_mem _ hev2))
  · intro pre
    induction pre with
    | nil => exact fun rest _ => rfl
    | cons ev evs ih =>
      intro rest h
      obtain ⟨m, cr, ct, hev, hcont⟩ := h ev (List.mem_cons_self ev evs)
      subst hev
      rw [List.cons_append]
      have hstep : waitForStatusRun target
          (WaitEvent.tick m cr ct :: (evs ++ WaitEvent.cancelled :: rest)) =
          waitForStatusRun target (evs ++ WaitEvent.cancelled :: rest) := by
        simp [waitForStatusRun, hcont]
      rw [hstep]
      exact ih rest (fun ev2 hev2 => h ev2 (List.mem_cons_of_mem _ hev2))

/-- Witness for C9: cancellation as the first event makes each loop return nil. -/
theorem loops_c9_witness :
    convergeClusterRun Status.running [ConvEvent.cancelled] = some none ∧
      convergeClusterWithTimeoutRun Status.running [ConvTOEvent.cancelled] = some none ∧
      waitForStatusRun Status.running [WaitEvent.cancelled] = some none :=
  ⟨(loops_c9 Status.running).1 [] [] (by simp),
   (loops_c9 Status.running).2.1 [] [] (by simp),
   (loops_c9 Status.running).2.2 [] [] (by simp)⟩

/-- C8: one tick of `waitForStatus` — a not-yet-created record keeps the loop
polling without error; a stale global heartbeat fails with the restore-stuck
error carrying the heartbeat; with a fresh heartbeat, a global status equal to
the target succeeds, and the error status fails immediately with the record's
carried message (the staleness check runs before the status switch, and the
target match is checked before the error case). -/
theorem waitForStatus_c8 (target : Status) :
    (∀ (cr : Bool) (ct : Nat) (rest : List WaitEvent),
      waitForStatusRun target (WaitEvent.tick MetaRes.notFound cr ct :: rest) =
        waitForStatusRun target rest) ∧
    (∀ (meta : RestoreMeta) (ct : Nat) (rest : List WaitEvent),
      staleHB meta.hb ct = true →
      waitForStatusRun target (WaitEvent.tick (MetaRes.okMeta meta) true ct :: rest) =
        some (some (WaitErr.stuck meta.hb))) ∧
    (∀ (meta : RestoreMeta) (ct : Nat) (rest : List WaitEvent),
      staleHB meta.hb ct = false → meta.status = target →
      waitForStatusRun target (WaitEvent.tick (MetaRes.okMeta meta) true ct :: rest) =
        some none) ∧
    (∀ (meta : RestoreMeta) (ct : Nat) (rest : List WaitEvent),
      staleHB meta.hb ct = false → meta.status = Status.error → target ≠ Status.error →
      waitForStatusRun target (WaitEvent.tick (MetaRes.okMeta meta) true ct :: rest) =
        some (some (WaitErr.clusterFailed meta.error))) := by
  refine ⟨?_, ?_, ?_, ?_⟩
  · intro cr ct rest
    rfl
  · intro meta ct rest h
    simp [waitForStatusRun, waitForStatusTick, h]
  · intro meta ct rest h1 h2
    simp [waitForStatusRun, waitForStatusTick, h1, h2]
  · intro meta ct rest h1 h2 hne
    have h3 : ¬(Status.error = target) := fun hcon => hne hcon.symm
    simp [waitForStatusRun, waitForStatusTick, h1, h2, h3]

/-- A record at the running status with a small heartbeat. -/
def c8Meta : RestoreMeta := ⟨Status.running, "", 10, []⟩

/-- A record at the error status carrying the message "boom". -/
def c8MetaErr : RestoreMeta := ⟨Status.error, "boom", 10, []⟩

/-- Witness for C8: all four tick behaviours at concrete inputs. -/
theorem waitForStatus_c8_witness :
    (waitForStatusRun Status.running [WaitEvent.tick MetaRes.notFound true 0] =
      waitForStatusRun Status.running []) ∧
    (waitForStatusRun Status.running [WaitEvent.tick (MetaRes.okMeta c8Meta) true 1000] =
      some (some (WaitErr.stuck c8Meta.hb))) ∧
    (waitForStatusRun Status.running [WaitEvent.tick (MetaRes.okMeta c8Meta) true 20] =
      some none) ∧
    (waitForStatusRun Status.running [WaitEvent.tick (MetaRes.okMeta c8MetaErr) true 20] =
      some (some (WaitErr.clusterFailed c8MetaErr.error))) :=
  ⟨(waitForStatus_c8 Status.running).1 true 0 [],
   (waitForStatus_c8 Status.running).2.1 c8Meta 1000 [] rfl,
   (waitForStatus_c8 Status.running).2.2.1 c8Meta 20 [] rfl rfl,
   (waitForStatus_c8 Status.running).2.2.2 c8MetaErr 20 [] rfl rfl (by decide)⟩

/-!
Backup node-priority scoring (`pbm/bcp_nodes_priority.go`): `NodesPriority`
groups nodes per replica set by score; `BcpNodesPriority` chooses the scoring
function from the configuration and the caller's coefficients, then scores
every healthy agent. Go float64 scores are modelled as exact rationals; Go
maps as association lists (with the per-replica-set map as a total function
whose default is the zero value, as Go map indexing yields). -/

/-- Association-list lookup, modelling Go map indexing `m[k]`. -/
def lookupA {κ β : Type} [DecidableEq κ] : List (κ × β) → κ → Option β
  | [], _ => none
  | (k, v) :: rest, key => if k = key then some v else lookupA rest key

/-- Modelled from the spec: the fields of `pbm.AgentStat` the scorer reads —
node name, replica set, node state, hidden flag, and the result of
`AgentStat.OK()` (whether the agent reports healthy). -/
structure AgentStat where
  node : String
  rs : String
  state : Nat
  hidden : Bool
  ok : Bool
deriving DecidableEq, Repr

/-- Modelled from the spec: `pbm.NodeStatePrimary`. -/
def nodeStatePrimary : Nat := 1

/-- `defaultScore = 1.0`. -/
def defaultScore : ℚ := 1

/-- `nodeScores`: the score-to-nodes map plus the insertion-order index of the
distinct scores seen. -/
structure NodeScoresL where
  idx : List ℚ
  m : List (ℚ × List String)
deriving DecidableEq, Repr

/-- The zero `nodeScores` value. -/
def emptyNS : NodeScoresL := ⟨[], []⟩

/-- Replace the value at an existing key, preserving entry order (Go map
update of a present key). -/
def updateA {κ β : Type} [DecidableEq κ] : List (κ × β) → κ → β → List (κ × β)
  | [], _, _ => []
  | (k, v) :: rest, key, nv =>
    if k = key then (k, nv) :: rest else (k, v) :: updateA rest key nv

/-- `nodeScores.add`: append the node to its score's bucket; a brand-new score
is also appended to the index. -/
def NodeScoresL.add (s : NodeScoresL) (node : String) (sc : ℚ) : NodeScoresL :=
  match lookupA s.m sc with
  | some nodes => ⟨s.idx, updateA s.m sc (nodes ++ [node])⟩
  | none => ⟨s.idx ++ [sc], s.m ++ [(sc, [node])]⟩

/-- Sort scores descending (`sort.Sort(sort.Reverse(sort.Float64Slice(...)))`). -/
def sortDescQ (l : List ℚ) : List ℚ := l.insertionSort (fun a b => a ≥ b)

/-- `nodeScores.list`: the buckets in descending score order. -/
def NodeScoresL.list (s : NodeScoresL) : List (List String) :=
  (sortDescQ s.idx).map (fun sc => (lookupA s.m sc).getD [])

/-- `NodesPriority`: the per-replica-set map, as a total function defaulting to
the zero `nodeScores`. -/
def NodesPriorityF : Type := String → NodeScoresL

/-- `NewNodesPriority()`. -/
def emptyNP : NodesPriorityF := fun _ => emptyNS

/-- `NodesPriority.Add`. -/
def addNP (n : NodesPriorityF) (rs node : String) (sc : ℚ) : NodesPriorityF :=
  fun r => if r = rs then (n rs).add node sc else n r

/-- `NodesPriority.RS`. -/
def RS (n : NodesPriorityF) (rs : String) : List (List String) := (n rs).list

/-- `bcpNodesPriority`: score every agent that reports healthy, skipping the
rest. -/
def bcpNodesPriority (agents : List AgentStat) (f : AgentStat → ℚ) : NodesPriorityF :=
  agents.foldl (fun acc a => if a.ok then addNP acc a.rs a.node (f a) else acc) emptyNP

/-- The backup section of the configuration: the optional cluster-level
priority map (`none` models a nil Go map, `some []` a present empty one). -/
structure BackupCfg where
  priority : Option (List (String × ℚ))
deriving DecidableEq, Repr

/-- The default scoring rule of `BcpNodesPriority` (no configuration): a
caller-supplied coefficient wins, then the primary role halves the default,
then hidden doubles it, else the default score. -/
def bcpScoreDefault (c : List (String × ℚ)) (a : AgentStat) : ℚ :=
  match lookupA c a.node with
  | some coeff => defaultScore * coeff
  | none =>
    if a.state = nodeStatePrimary then defaultScore / 2
    else if a.hidden then defaultScore * 2
    else defaultScore

/-- The configuration scoring rule: the configured score, with absent or
negative entries falling back to the default score. -/
def bcpScoreConfig (prio : List (String × ℚ)) (a : AgentStat) : ℚ :=
  match lookupA prio a.node with
  | some sc => if sc < 0 then defaultScore else sc
  | none => defaultScore

/-- The scoring function `BcpNodesPriority` builds: the default rule, replaced
by the configuration rule when `cfg.Backup.Priority != nil ||
len(cfg.Backup.Priority) > 0` — which holds exactly when the map is present,
even if it is empty. -/
def bcpSelectScore (cfg : BackupCfg) (c : List (String × ℚ)) : AgentStat → ℚ :=
  if cfg.priority ≠ none ∨ 0 < (cfg.priority.getD []).length then
    bcpScoreConfig (cfg.priority.getD [])
  else bcpScoreDefault c

/-- Embedding of `BcpNodesPriority`: read the configuration (`Except.error`
models a `GetConfig` failure), select the scoring rule, and score all healthy
agents. -/
def BcpNodesPriority (cfgRes : Except Unit BackupCfg) (c : List (String × ℚ))
    (agents : List AgentStat) : Except Unit NodesPriorityF :=
  match cfgRes with
  | Except.error _ => Except.error ()
  | Except.ok cfg => Except.ok (bcpNodesPriority agents (bcpSelectScore cfg c))

/-- Claim C6's scoring rule, following the claim's words: the configuration is
consulted only when it exists and is NON-EMPTY; otherwise the
coefficient/primary/hidden/default rules apply, first match winning. -/
def claimC6Score (cfg : BackupCfg) (c : List (String × ℚ)) (a : AgentStat) : ℚ :=
  if 0 < (cfg.priority.getD []).length then
    match lookupA (cfg.priority.getD []) a.node with
    | some sc => if sc < 0 then 1 else sc
    | none => 1
  else
    match lookupA c a.node with
    | some coeff => 1 * coeff
    | none =>
      if a.state = nodeStatePrimary then 1 / 2
      else if a.hidden then 1 * 2
      else 1

/-- The C6 rule as the code actually decides it: the configuration is consulted
whenever it is PRESENT (non-nil), even when empty. -/
def claimC6ScoreAmended (cfg : BackupCfg) (c : List (String × ℚ)) (a : AgentStat) : ℚ :=
  if cfg.priority.isSome then
    match lookupA (cfg.priority.getD []) a.node with
    | some sc => if sc < 0 then 1 else sc
    | none => 1
  else
    match lookupA c a.node with
    | some coeff => 1 * coeff
    | none =>
      if a.state = nodeStatePrimary then 1 / 2
      else if a.hidden then 1 * 2
      else 1

/-- A healthy, non-primary, non-hidden agent named n1. -/
def c6Agent : AgentStat := ⟨"n1", "rs1", 2, false, true⟩

/-- C6 counterexample: with a present-but-EMPTY cluster priority configuration
and a caller coefficient of 3 for n1, the code scores n1 with the
configuration rule (falling back to 1.0), while the claim — for which an empty
configuration does not "exist (non-empty)" — prescribes 1.0 * 3 = 3. -/
theorem bcp_c6_counterexample :
    bcpSelectScore ⟨some []⟩ [("n1", 3)] c6Agent = 1 ∧
      claimC6Score ⟨some []⟩ [("n1", 3)] c6Agent = 3 ∧
      BcpNodesPriority (Except.ok ⟨some []⟩) [("n1", 3)] [c6Agent] =
        Except.ok (bcpNodesPriority [c6Agent] (bcpSelectScore ⟨some []⟩ [("n1", 3)])) := by
  refine ⟨?_, ?_, rfl⟩
  · rfl
  · norm_num [claimC6Score, lookupA, c6Agent]

/-- C6 (amended): the scoring function `BcpNodesPriority` uses is the claim's
rule with "exists (non-empty)" amended to "is present (non-nil, even if
empty)": with a present configuration each node's score is looked up there
and absent or negative entries fall back to 1.0 (caller coefficients
ignored); with no configuration the caller coefficient, primary-role,
hidden, and default rules apply in that order. -/
theorem bcp_c6_amended (cfg : BackupCfg) (c : List (String × ℚ))
    (agents : List AgentStat) :
    BcpNodesPriority (Except.ok cfg) c agents =
      Except.ok (bcpNodesPriority agents (claimC6ScoreAmended cfg c)) ∧
    BcpNodesPriority (Except.error ()) c agents = Except.error () := by
  have hf : bcpSelectScore cfg c = claimC6ScoreAmended cfg c := by
    funext a
    cases hp : cfg.priority with
    | none =>
      have hsel : bcpSelectScore cfg c a = bcpScoreDefault c a := by
        simp [bcpSelectScore, hp]
      rw [hsel]
      cases hl : lookupA c a.node with
      | some coeff =>
        simp [bcpScoreDefault, claimC6ScoreAmended, hp, hl, defaultScore]
      | none =>
        simp [bcpScoreDefault, claimC6ScoreAmended, hp, hl, defaultScore]
    | some prio =>
      have hsel : bcpSelectScore cfg c a = bcpScoreConfig prio a := by
        simp [bcpSelectScore, hp]
      rw [hsel]
      cases hl : lookupA prio a.node with
      | some sc =>
        simp [bcpScoreConfig, claimC6ScoreAmended, hp, hl, defaultScore]
      | none =>
        simp [bcpScoreConfig, claimC6ScoreAmended, hp, hl, defaultScore]
  constructor
  · show Except.ok (bcpNodesPriority agents (bcpSelectScore cfg c)) =
      Except.ok (bcpNodesPriority agents (claimC6ScoreAmended cfg c))
    rw [hf]
  · rfl

/-- Witness for the amended C6: both branches evaluated at concrete inputs. -/
theorem bcp_c6_amended_witness :
    (BcpNodesPriority (Except.ok ⟨some []⟩) [("n1", 3)] [c6Agent] =
      Except.ok (bcpNodesPriority [c6Agent] (claimC6ScoreAmended ⟨some []⟩ [("n1", 3)])) ∧
     BcpNodesPriority (Except.error ()) [("n1", 3)] [c6Agent] = Except.error ()) ∧
    (BcpNodesPriority (Except.ok ⟨none⟩) [("n1", 3)] [c6Agent] =
      Except.ok (bcpNodesPriority [c6Agent] (claimC6ScoreAmended ⟨none⟩ [("n1", 3)])) ∧
     BcpNodesPriority (Except.error ()) [("n1", 3)] [c6Agent] = Except.error ()) :=
  ⟨bcp_c6_amended ⟨some []⟩ [("n1", 3)] [c6Agent],
   bcp_c6_amended ⟨none⟩ [("n1", 3)] [c6Agent]⟩

theorem lookupA_eq_none {κ β : Type} [DecidableEq κ] :
    ∀ (m : List (κ × β)) (k : κ), lookupA m k = none ↔ k ∉ m.map Prod.fst
  | [], k => by simp [lookupA]
  | (k1, v1) :: rest, k => by
    by_cases h : k1 = k
    · simp [lookupA, h]
    · simp only [lookupA, if_neg h, List.map_cons, List.mem_cons]
      rw [lookupA_eq_none rest k]
      constructor
      · intro hni hmem
        rcases hmem with hk | hk
        · exact h hk.symm
        · exact hni hk
      · intro hni hk
        exact hni (Or.inr hk)

theorem updateA_map_fst {κ β : Type} [DecidableEq κ] :
    ∀ (m : List (κ × β)) (k : κ) (v : β),
      (updateA m k v).map Prod.fst = m.map Prod.fst
  | [], _, _ => rfl
  | (k1, v1) :: rest, k, v => by
    by_cases h : k1 = k
    · simp [updateA, h]
    · simp [updateA, h, updateA_map_fst rest k v]

theorem lookupA_updateA_self {κ β : Type} [DecidableEq κ] :
    ∀ (m : List (κ × β)) (k : κ) (v w : β), lookupA m k = some w →
      lookupA (updateA m k v) k = some v
  | [], _, _, _ => by simp [lookupA]
  | (k1, v1) :: rest, k, v, w => by
    by_cases h : k1 = k
    · simp [lookupA, updateA, h]
    · intro hl
      simp only [lookupA, updateA, if_neg h] at hl ⊢
      exact lookupA_updateA_self rest k v w hl

theorem lookupA_updateA_other {κ β : Type} [DecidableEq κ] :
    ∀ (m : List (κ × β)) (k k' : κ) (v : β), k' ≠ k →
      lookupA (updateA m k v) k' = lookupA m k'
  | [], _, _, _, _ => rfl
  | (k1, v1) :: rest, k, k', v, hne => by
    by_cases h : k1 = k
    · have h4 : ¬(k = k') := fun hcon => hne hcon.symm
      simp [lookupA, updateA, h, h4]
    · simp only [updateA, if_neg h, lookupA]
      by_cases h3 : k1 = k'
      · simp [h3]
      · simp [h3, lookupA_updateA_other rest k k' v hne]

theorem lookupA_append {κ β : Type} [DecidableEq κ] :
    ∀ (m l2 : List (κ × β)) (k : κ),
      lookupA (m ++ l2) k =
        match lookupA m k with
        | some w => some w
        | none => lookupA l2 k
  | [], l2, k => rfl
  | (k1, v1) :: rest, l2, k => by
    by_cases h : k1 = k
    · simp [lookupA, h]
    · simp only [List.cons_append, lookupA, if_neg h]
      exact lookupA_append rest l2 k

/-- One step of the `bcpNodesPriority` loop. -/
def bcpStep (f : AgentStat → ℚ) (acc : NodesPriorityF) (a : AgentStat) : NodesPriorityF :=
  if a.ok then addNP acc a.rs a.node (f a) else acc

/-- The (node, score) pairs a `bcpNodesPriority` run adds for one replica set:
its healthy agents, in order, with their scores. -/
def rsAdds (agents : List AgentStat) (f : AgentStat → ℚ) (rs : String) :
    List (String × ℚ) :=
  (agents.filter (fun a => a.ok && (a.rs == rs))).map (fun a => (a.node, f a))

/-- Fold (node, score) adds into a `nodeScores` accumulator. -/
def buildNSFrom (s : NodeScoresL) (ps : List (String × ℚ)) : NodeScoresL :=
  ps.foldl (fun s p => s.add p.1 p.2) s

/-- The `nodeScores` built from scratch by a list of adds. -/
def buildNS (ps : List (String × ℚ)) : NodeScoresL := buildNSFrom emptyNS ps

/-- The nodes added with a given score, in order. -/
def bucketSpec (ps : List (String × ℚ)) (sc : ℚ) : List String :=
  (ps.filter (fun p => decide (p.2 = sc))).map Prod.fst

theorem buildNS_concat (ps : List (String × ℚ)) (p : String × ℚ) :
    buildNS (ps ++ [p]) = (buildNS ps).add p.1 p.2 := by
  simp [buildNS, buildNSFrom, List.foldl_append]

theorem buildNS_keys (ps : List (String × ℚ)) :
    (buildNS ps).m.map Prod.fst = (buildNS ps).idx := by
  induction ps using List.reverseRecOn with
  | nil => rfl
  | append_singleton ps p ih =>
    rw [buildNS_concat]
    cases hl : lookupA (buildNS ps).m p.2 with
    | some nodes => simp [NodeScoresL.add, hl, updateA_map_fst, ih]
    | none => simp [NodeScoresL.add, hl, ih]

theorem buildNS_idx_nodup (ps : List (String × ℚ)) : (buildNS ps).idx.Nodup := by
  induction ps using List.reverseRecOn with
  | nil => simp [buildNS, buildNSFrom, emptyNS]
  | append_singleton ps p ih =>
    rw [buildNS_concat]
    cases hl : lookupA (buildNS ps).m p.2 with
    | some nodes => simpa [NodeScoresL.add, hl] using ih
    | none =>
      have hnotin : p.2 ∉ (buildNS ps).idx := by
        rw [← buildNS_keys ps]
        exact (lookupA_eq_none _ _).mp hl
      simp [NodeScoresL.add, hl, List.nodup_append, ih, hnotin]

theorem buildNS_lookup (ps : List (String × ℚ)) :
    ∀ sc : ℚ, lookupA (buildNS ps).m sc =
      if bucketSpec ps sc = [] then none else some (bucketSpec ps sc) := by
  induction ps using List.reverseRecOn with
  | nil =>
    intro sc
    simp [buildNS, buildNSFrom, emptyNS, bucketSpec, lookupA]
  | append_singleton ps p ih =>
    intro sc
    have hbucket : bucketSpec (ps ++ [p]) sc =
        bucketSpec ps sc ++ (if p.2 = sc then [p.1] else []) := by
      by_cases h : p.2 = sc
      · simp [bucketSpec, List.filter_append, h]
      · simp [bucketSpec, List.filter_append, h]
    rw [buildNS_concat, hbucket]
    by_cases hsc : p.2 = sc
    · subst hsc
      rw [if_pos rfl]
      have hne2 : bucketSpec ps p.2 ++ [p.1] ≠ [] := by simp
      rw [if_neg hne2]
      cases hl : lookupA (buildNS ps).m p.2 with
      | some nodes =>
        have hb := ih p.2
        rw [hl] at hb
        have hbne : bucketSpec ps p.2 ≠ [] := by
          intro hcon
          rw [hcon] at hb
          simp at hb
        rw [if_neg hbne] at hb
        have hnodes : nodes = bucketSpec ps p.2 := by
          injection hb
        subst hnodes
        simp only [NodeScoresL.add, hl]
        exact lookupA_updateA_self _ _ _ _ hl
      | none =>
        have hb := ih p.2
        rw [hl] at hb
        have hbe : bucketSpec ps p.2 = [] := by
          by_cases hcon : bucketSpec ps p.2 = []
          · exact hcon
          · rw [if_neg hcon] at hb
            cases hb
        rw [hbe]
        simp [NodeScoresL.add, hl, lookupA_append, lookupA]
    · have hother : bucketSpec ps sc ++ (if p.2 = sc then [p.1] else []) =
          bucketSpec ps sc := by
        simp [hsc]
      rw [hother]
      cases hl : lookupA (buildNS ps).m p.2 with
      | some nodes =>
        simp only [NodeScoresL.add, hl]
        rw [lookupA_updateA_other _ _ _ _ (fun hcon => hsc hcon.symm)]
        exact ih sc
      | none =>
        simp only [NodeScoresL.add, hl]
        rw [lookupA_append]
        have hl2 : lookupA [(p.2, [p.1])] sc = none := by
          simp [lookupA, hsc]
        cases hm : lookupA (buildNS ps).m sc with
        | some w =>
          have := ih sc
          rw [hm] at this
          rw [← this]
        | none =>
          rw [hl2]
          have := ih sc
          rw [hm] at this
          rw [← this]

theorem bcpNodesPriority_proj (f : AgentStat → ℚ) (rs : String) :
    ∀ (agents : List AgentStat) (acc : NodesPriorityF),
      (agents.foldl (bcpStep f) acc) rs = buildNSFrom (acc rs) (rsAdds agents f rs)
  | [], acc => rfl
  | a :: rest, acc => by
    rw [List.foldl_cons, bcpNodesPriority_proj f rs rest (bcpStep f acc a)]
    by_cases hok : a.ok = true
    · by_cases hrs : a.rs = rs
      · have h2 : rsAdds (a :: rest) f rs = (a.node, f a) :: rsAdds rest f rs := by
          simp [rsAdds, hok, hrs]
        have h1 : (bcpStep f acc a) rs = (acc rs).add a.node (f a) := by
          simp [bcpStep, hok, addNP, hrs]
        rw [h2, h1]
        rfl
      · have h2 : rsAdds (a :: rest) f rs = rsAdds rest f rs := by
          simp [rsAdds, hrs]
        have h1 : (bcpStep f acc a) rs = acc rs := by
          have hne : ¬(rs = a.rs) := fun hcon => hrs hcon.symm
          simp [bcpStep, hok, addNP, hne]
        rw [h2, h1]
    · have h2 : rsAdds (a :: rest) f rs = rsAdds rest f rs := by
        simp [rsAdds, hok]
      have h1 : (bcpStep f acc a) rs = acc rs := by
        simp [bcpStep, hok]
      rw [h2, h1]

theorem RS_bcpNodesPriority (agents : List AgentStat) (f : AgentStat → ℚ) (rs : String) :
    RS (bcpNodesPriority agents f) rs = (buildNS (rsAdds agents f rs)).list := by
  unfold RS bcpNodesPriority buildNS
  rw [show (fun (acc : NodesPriorityF) (a : AgentStat) =>
      if a.ok = true then addNP acc a.rs a.node (f a) else acc) = bcpStep f from rfl]
  rw [bcpNodesPriority_proj f rs agents emptyNP]
  rfl

theorem bucketSpec_rsAdds (agents : List AgentStat) (f : AgentStat → ℚ) (rs : String)
    (sc : ℚ) :
    bucketSpec (rsAdds agents f rs) sc =
      ((agents.filter (fun a => a.ok && (a.rs == rs))).filter
        (fun a => decide (f a = sc))).map (fun a => a.node) := by
  unfold bucketSpec rsAdds
  rw [List.map_filter, List.map_map]
  rfl

/-- C7: for every replica set, `RS` on the scorer's output returns groups
ordered by strictly descending score; each group is exactly the healthy agents
of that replica set scoring that value, in insertion order — so every node of
a group carries the score it was added with and no group is empty; and the
union of the groups is exactly the set of nodes of healthy agents added for
that replica set, so agents not reporting healthy never appear in any group. -/
theorem nodesPriority_c7 (agents : List AgentStat) (f : AgentStat → ℚ) (rs : String) :
    ∃ ss : List ℚ,
      ss.Sorted (fun a b => a > b) ∧
      RS (bcpNodesPriority agents f) rs =
        ss.map (fun sc =>
          ((agents.filter (fun a => a.ok && (a.rs == rs))).filter
            (fun a => decide (f a = sc))).map (fun a => a.node)) ∧
      (∀ sc ∈ ss,
        ((agents.filter (fun a => a.ok && (a.rs == rs))).filter
          (fun a => decide (f a = sc))).map (fun a => a.node) ≠ []) ∧
      (∀ node, node ∈ (RS (bcpNodesPriority agents f) rs).flatten ↔
        ∃ a ∈ agents, a.ok = true ∧ a.rs = rs ∧ a.node = node) := by
  have hperm : (sortDescQ (buildNS (rsAdds agents f rs)).idx).Perm
      (buildNS (rsAdds agents f rs)).idx :=
    List.perm_insertionSort _ _
  have hmemkey : ∀ sc : ℚ, sc ∈ sortDescQ (buildNS (rsAdds agents f rs)).idx ↔
      bucketSpec (rsAdds agents f rs) sc ≠ [] := by
    intro sc
    rw [List.Perm.mem_iff hperm, ← buildNS_keys]
    rw [show (sc ∈ (buildNS (rsAdds agents f rs)).m.map Prod.fst) ↔
        ¬lookupA (buildNS (rsAdds agents f rs)).m sc = none from by
      rw [lookupA_eq_none]
      exact not_not.symm]
    rw [buildNS_lookup]
    by_cases hb : bucketSpec (rsAdds agents f rs) sc = []
    · simp [hb]
    · simp [hb]
  have hbucketEq : ∀ sc : ℚ, bucketSpec (rsAdds agents f rs) sc ≠ [] →
      (lookupA (buildNS (rsAdds agents f rs)).m sc).getD [] =
        bucketSpec (rsAdds agents f rs) sc := by
    intro sc hne
    rw [buildNS_lookup, if_neg hne]
    rfl
  refine ⟨sortDescQ (buildNS (rsAdds agents f rs)).idx, ?_, ?_, ?_, ?_⟩
  · have hsorted : (sortDescQ (buildNS (rsAdds agents f rs)).idx).Sorted
        (fun a b => a ≥ b) :=
      List.sorted_insertionSort _ _
    have hnodup : (sortDescQ (buildNS (rsAdds agents f rs)).idx).Nodup :=
      hperm.nodup_iff.mpr (buildNS_idx_nodup _)
    exact (List.Pairwise.and hsorted hnodup).imp
      (fun h => lt_of_le_of_ne h.1 (Ne.symm h.2))
  · rw [RS_bcpNodesPriority]
    unfold NodeScoresL.list
    apply List.map_congr_left
    intro sc hsc
    rw [hbucketEq sc ((hmemkey sc).mp hsc), bucketSpec_rsAdds]
  · intro sc hsc
    have h := (hmemkey sc).mp hsc
    rw [bucketSpec_rsAdds] at h
    exact h
  · intro node
    rw [RS_bcpNodesPriority]
    unfold NodeScoresL.list
    rw [List.mem_flatten]
    constructor
    · rintro ⟨grp, hgrp, hnode⟩
      obtain ⟨sc, hsc, hgeq⟩ := List.mem_map.mp hgrp
      rw [← hgeq] at hnode
      rw [hbucketEq sc ((hmemkey sc).mp hsc), bucketSpec_rsAdds] at hnode
      obtain ⟨a, ha, haeq⟩ := List.mem_map.mp hnode
      have ha2 := List.mem_filter.mp ha
      have ha3 := List.mem_filter.mp ha2.1
      have hok_rs : a.ok = true ∧ a.rs = rs := by
        have hb := ha3.2
        simp at hb
        exact hb
      exact ⟨a, ha3.1, hok_rs.1, hok_rs.2, haeq⟩
    · rintro ⟨a, ha, hok, hrs, hnode⟩
      have hafil : a ∈ agents.filter (fun a => a.ok && (a.rs == rs)) := by
        rw [List.mem_filter]
        exact ⟨ha, by simp [hok, hrs]⟩
      have hbne : bucketSpec (rsAdds agents f rs) (f a) ≠ [] := by
        rw [bucketSpec_rsAdds]
        intro hcon
        have hmem2 : a ∈ (agents.filter (fun a => a.ok && (a.rs == rs))).filter
            (fun x => decide (f x = f a)) := by
          rw [List.mem_filter]
          exact ⟨hafil, by simp⟩
        have hfe := List.map_eq_nil.mp hcon
        rw [hfe] at hmem2
        cases hmem2
      refine ⟨(lookupA (buildNS (rsAdds agents f rs)).m (f a)).getD [], ?_, ?_⟩
      · exact List.mem_map.mpr ⟨f a, (hmemkey (f a)).mpr hbne, rfl⟩
      · rw [hbucketEq (f a) hbne, bucketSpec_rsAdds]
        exact List.mem_map.mpr ⟨a, List.mem_filter.mpr ⟨hafil, by simp⟩, hnode⟩

/-- Concrete agents for the C7 witness: a hidden and a plain healthy agent plus
an unhealthy one, all in rs1. -/
def c7Agents : List AgentStat :=
  [⟨"n1", "rs1", 2, true, true⟩, ⟨"n2", "rs1", 2, false, true⟩,
   ⟨"n3", "rs1", 2, false, false⟩]

/-- The hidden-preferring scoring function used by the C7 witness. -/
def c7Score (a : AgentStat) : ℚ := if a.hidden then 2 else 1

/-- Witness for C7 at a concrete input. -/
theorem nodesPriority_c7_witness :
    ∃ ss : List ℚ,
      ss.Sorted (fun a b => a > b) ∧
      RS (bcpNodesPriority c7Agents c7Score) "rs1" =
        ss.map (fun sc =>
          ((c7Agents.filter (fun a => a.ok && (a.rs == "rs1"))).filter
            (fun a => decide (c7Score a = sc))).map (fun a => a.node)) ∧
      (∀ sc ∈ ss,
        ((c7Agents.filter (fun a => a.ok && (a.rs == "rs1"))).filter
          (fun a => decide (c7Score a = sc))).map (fun a => a.node) ≠ []) ∧
      (∀ node, node ∈ (RS (bcpNodesPriority c7Agents c7Score) "rs1").flatten ↔
        ∃ a ∈ c7Agents, a.ok = true ∧ a.rs = "rs1" ∧ a.node = node) :=
  nodesPriority_c7 c7Agents c7Score "rs1"

end PBM
